import Mathlib

/-!
A verification development for the BOLT `PostLinkOutlining` pass
(`bolt/lib/Passes/PostLinkOutlining.cpp`, header
`bolt/include/bolt/Passes/PostLinkOutlining.h`).

The pass is shallowly embedded: machine instructions (`MCInst`) become the
`Inst` structure below, whose boolean fields stand for the per-opcode
predicates the C++ code obtains from `MCPlusBuilder` / `MCInstrDesc`
(`isCall`, `mayLoad`, `getNumDefs`, ...), and whose `name` field is the
lower-cased opcode name returned by `BC.InstPrinter->getOpcodeName`
(the code only ever inspects the lowered name).  Basic blocks, functions
and the host's function table become plain lists.  Register ids are the
canonical AArch64 numbers used throughout the pass: SP = 31, FP = 29,
LR = 30 (the source hard-codes 29/30/31 in `normalizeRegister` and in the
structural operand re-check, and its debug output asserts
`MIB->getStackPointer() == 31` and `MIB->getFramePointer() == 29`;
`getLinkRegister` resolves the name "x30"/"lr" to the LR id and returns
0 on a non-AArch64 target).  `MRI->isSubRegisterEq(r, s)` is modeled as
id equality: registers are abstract ids with no aliasing structure.

Every definition cites the line range of the source file it translates.
-/

set_option autoImplicit false

namespace PLO

/-- Operand of an instruction: register, immediate, expression
(a symbol reference; MC expressions are compared by object identity in
the source, so a symbol id suffices), or a single-precision FP immediate
(stored by `MCOperand` as its `uint32` bit pattern). -/
inductive Operand where
  | reg (r : Nat)
  | imm (v : Int)
  | expr (sym : Nat)
  | sfp (bits : Nat)
deriving DecidableEq, Repr, Inhabited

/-- A machine instruction together with the static per-opcode facts the
pass queries about it.  `name` is the lower-cased opcode name. -/
structure Inst where
  opcode : Nat
  name : List Char
  ops : List Operand
  numDefs : Nat
  mayLoad : Bool
  mayStore : Bool
  isPseudo : Bool
  isCFI : Bool
  isCall : Bool
  isIndirectCall : Bool
  isTailCall : Bool
  isReturn : Bool
  isBranch : Bool
  isUncondBranch : Bool
  isPush : Bool
  isPop : Bool
  isTerminator : Bool
deriving DecidableEq, Repr, Inhabited

/-- A basic block: its instruction list, the indices of its successor
blocks inside the enclosing function, and its profile data. -/
structure Block where
  insts : List Inst
  succs : List Nat
  profiled : Bool
  execCount : Nat
deriving DecidableEq, Repr, Inhabited

/-- A binary function: layout-ordered blocks plus the host-side facts the
pass queries (`hasEHRanges`, `isInjected`, `hasProfile`,
`getKnownExecutionCount`, `shouldOptimize`).  `sym` is the id of the
function's own `MCSymbol`. -/
structure Func where
  blocks : List Block
  hasEH : Bool
  injected : Bool
  profiled : Bool
  execCount : Nat
  optimize : Bool
  sym : Nat
deriving DecidableEq, Repr, Inhabited

/-- The host program: the `BC.getBinaryFunctions()` table in its
deterministic iteration order.  Injected functions are registered in a
separate list (`BC.createInjectedBinaryFunction` appends to
`InjectedBinaryFunctions`, not to this table). -/
structure Program where
  funcs : List Func
deriving DecidableEq, Repr, Inhabited

/-- Pass configuration: constructor parameters `LargestLength` and
`EnablePGO`, the option `post-link-outlining-min-length`, and the
`BC.isAArch64()` flag of the host context. -/
structure Config where
  largestLength : Nat
  minLength : Nat
  enablePGO : Bool
  arch : Bool
deriving DecidableEq, Repr, Inhabited

/-- Stack pointer register id (AArch64 SP). -/
def SPreg : Nat := 31

/-- Frame pointer register id (AArch64 X29). -/
def FPreg : Nat := 29

/-- `getLinkRegister` (source lines 41-56): the LR id on AArch64, 0 on
any other architecture. -/
def getLinkRegister (arch : Bool) : Nat :=
  if arch then 30 else 0

/-- True when `pat` is a leading segment of `l`
(`StringRef::find(pat) == 0` on the lowered name). -/
def beginsWith (pat : List Char) (l : List Char) : Bool :=
  match pat, l with
  | [], _ => true
  | _ :: _, [] => false
  | p :: ps, c :: cs => p == c && beginsWith ps cs

/-- True when `pat` occurs contiguously anywhere in `l`
(`std::string::find(pat) != npos`). -/
def containsSeq (pat : List Char) (l : List Char) : Bool :=
  match l with
  | [] => beginsWith pat []
  | _ :: cs => beginsWith pat l || containsSeq pat cs

/-- `isLeafFunction` (source lines 59-74): true iff no instruction of any
block is a call (an empty function counts as a leaf). -/
def isLeafFunction (f : Func) : Bool :=
  f.blocks.all (fun b => b.insts.all (fun i => !i.isCall))

/-- First phase of `isLRSavedAtPoint` (source lines 84-123): walk the
blocks in layout order maintaining `retEncountered`; return `true` when
the walk hits one of the two `return false` sites ("outline point after a
ret").  The walk stops at the location's block.  `j` is the index of the
block at the head of the remaining list. -/
def retPhaseUnsafe (bbIdx startIndex : Nat) : Nat → List Block → Bool
  | _, [] => false
  | j, b :: rest =>
    let retIn := b.insts.any (fun i => i.isReturn)
    if retIn && j == bbIdx then
      -- the first ret of this block; `List.findIdx` models the index scan
      decide (startIndex > b.insts.findIdx (fun i => i.isReturn))
    else if retIn then true
    else if j == bbIdx then false
    else retPhaseUnsafe bbIdx startIndex (j + 1) rest

/-- Second phase of `isLRSavedAtPoint` (source lines 136-154): scan the
entry block up to `lim` positions for a push/store naming LR; a
terminator or call ends the scan (returns false) only when the location
itself is in the entry block. -/
def entryScanLRSaved (lr : Nat) (isEntry : Bool) : List Inst → Nat → Bool
  | _, 0 => false
  | [], _ => false
  | inst :: rest, lim + 1 =>
    if (inst.isPush || inst.mayStore) && inst.ops.any (fun o => o == Operand.reg lr) then
      true
    else if (inst.isTerminator || inst.isCall) && isEntry then
      false
    else entryScanLRSaved lr isEntry rest lim

/-- `isLRSavedAtPoint` (source lines 77-157): whether LR is known to be
saved before position `startIndex` of block `bbIdx` of `f`. -/
def isLRSavedAtPoint (arch : Bool) (f : Func) (bbIdx startIndex : Nat) : Bool :=
  match f.blocks with
  | [] => false
  | entry :: _ =>
    if retPhaseUnsafe bbIdx startIndex 0 f.blocks then false
    else
      let isEntry := bbIdx == 0
      let lim := if isEntry then startIndex else entry.insts.length
      entryScanLRSaved (getLinkRegister arch) isEntry entry.insts lim

/-- `getInstructionScale` (source lines 161-198): the memory-access byte
unit implied by the lowered opcode name.  (The inner `ldur`/`stur` test
is dead in the source — such names do not start with `ldr`/`str` — and is
kept for fidelity.) -/
def getInstructionScale (nm : List Char) : Int :=
  if beginsWith "ldp".toList nm || beginsWith "stp".toList nm then
    if containsSeq "xi".toList nm then 8
    else if containsSeq "wi".toList nm then 4
    else if containsSeq "qi".toList nm then 16
    else if containsSeq "di".toList nm then 8
    else if containsSeq "si".toList nm then 4
    else 1
  else if beginsWith "ldr".toList nm || beginsWith "str".toList nm then
    if containsSeq "xui".toList nm then 8
    else if containsSeq "wui".toList nm then 4
    else if containsSeq "qui".toList nm then 16
    else if containsSeq "hui".toList nm then 2
    else if containsSeq "bui".toList nm then 1
    else if beginsWith "ldur".toList nm || beginsWith "stur".toList nm then 1
    else 1
  else 1

/-- Operand-list comparison used by `areInstructionsEqual`: kinds must
match and values must be equal (expression operands compare by symbol
identity, exactly as the source compares `MCExpr` pointers). -/
def operandsEq : List Operand → List Operand → Bool
  | [], [] => true
  | o1 :: t1, o2 :: t2 => o1 == o2 && operandsEq t1 t2
  | _, _ => false

/-- `areInstructionsEqual` (source lines 202-238): same opcode, same
operand count, pairwise equal operands. -/
def areInstructionsEqual (i1 i2 : Inst) : Bool :=
  i1.opcode == i2.opcode && operandsEq i1.ops i2.ops

/-- Shift-opcode test of `areImmediatesCompatible` (source lines
298-305): both lowered names mention a shift mnemonic. -/
def isShiftName (nm : List Char) : Bool :=
  containsSeq "lsr".toList nm || containsSeq "lsl".toList nm ||
  containsSeq "asr".toList nm || containsSeq "ror".toList nm

/-- SP/FP scan of `areImmediatesCompatible` (source lines 273-283): does
any operand of the FIRST instruction name SP or FP? -/
def usesSPorFP (i : Inst) : Bool :=
  i.ops.any (fun o =>
    match o with
    | Operand.reg r => r == SPreg || r == FPreg
    | _ => false)

/-- `areImmediatesCompatible` (source lines 241-322). -/
def areImmediatesCompatible (i1 i2 : Inst) (k1 k2 : Nat) : Bool :=
  if k1 ≥ i1.ops.length || k2 ≥ i2.ops.length then false
  else
    match i1.ops.get? k1, i2.ops.get? k2 with
    | some (Operand.imm v1), some (Operand.imm v2) =>
      if v1 == v2 then true
      else
        let mayAccessStack := (i1.mayLoad || i1.mayStore) && (i2.mayLoad || i2.mayStore)
        if mayAccessStack && usesSPorFP i1 then false
        else
          let isShiftInst := isShiftName i1.name && isShiftName i2.name
          if isShiftInst && k1 == k2 && (v1 - v2).natAbs ≤ 1 then true
          else if v1.natAbs ≤ 15 && v2.natAbs ≤ 15 && (v1 - v2).natAbs ≤ 1 then true
          else false
    | some o1, some o2 =>
      -- `if (!Op1.isImm() || !Op2.isImm()) return Op1.isImm() == Op2.isImm();`
      (match o1 with | Operand.imm _ => true | _ => false) ==
        (match o2 with | Operand.imm _ => true | _ => false)
    | _, _ => false

/-- `areInstructionsSemanticallyEquivalent` (source lines 325-335): same
opcode and operand count. -/
def areInstructionsSemanticallyEquivalent (i1 i2 : Inst) : Bool :=
  i1.opcode == i2.opcode && i1.ops.length == i2.ops.length

/-- The store-through-SP lookback of the call case of
`shouldRejectInstruction` (source lines 354-368): does any instruction of
`bb` at an index in `[seqStart, instIdx)` store and name SP?
Out-of-range indices read nothing (`getInstructionAtIndex` is only ever
in range when the enclosing window lies inside `bb`; for re-validated
cross-block windows the range is clipped to the block). -/
def storeThroughSPBefore (bb : List Inst) (seqStart instIdx : Nat) : Bool :=
  (List.range instIdx).any (fun i =>
    seqStart ≤ i &&
      match bb.get? i with
      | some prev =>
        prev.mayStore && prev.ops.any (fun o => o == Operand.reg SPreg)
      | none => false)

/-- `shouldRejectInstruction` (source lines 339-451).  Returns the reject
reason: 0 = accept, 1 = pseudo/CFI/opcode-zero, 2 = return / misplaced
call / branch, 3 = PC-relative materialization, 4 = FP/LR use,
5 = SP definition, 6 = SP store or non-load SP use in a short window,
7 = SP load without an immediate offset in a short window.
`allowBranch` is a parameter of the source function that its body never
reads; it is kept for fidelity. -/
def shouldRejectInstruction (arch : Bool) (inst : Inst) (len : Nat)
    (allowBranch isLastInSeq : Bool) (bb : List Inst)
    (seqStartIdx instIdx : Nat) : Nat :=
  let _unused := allowBranch
  if inst.opcode == 0 || inst.isPseudo || inst.isCFI then 1
  else if inst.isReturn then 2
  else if inst.isCall then
    if !isLastInSeq then 2
    else if seqStartIdx < instIdx && storeThroughSPBefore bb seqStartIdx instIdx then 2
    else 0
  else if inst.isBranch then
    if isLastInSeq then
      if inst.isUncondBranch then 2 else 0
    else 2
  else if arch &&
      (inst.name == "adr".toList || inst.name == "adrp".toList ||
        (beginsWith "ldr".toList inst.name && containsSeq "_lit".toList inst.name)) then
    3
  else
    -- operand scan (source lines 396-416)
    let fpOrLR :=
      inst.ops.any (fun o =>
        match o with
        | Operand.reg r => r == FPreg || r == getLinkRegister arch
        | _ => false)
    if fpOrLR then 4
    else
      let usesSP := inst.ops.any (fun o => o == Operand.reg SPreg)
      let modifiesSP :=
        (List.range inst.ops.length).any (fun k =>
          k < inst.numDefs && inst.ops.get? k == some (Operand.reg SPreg))
      if modifiesSP then 5
      else if usesSP then
        let isLongSequence := decide (len ≥ 5)
        if inst.mayStore then 6
        else if !isLongSequence then
          if !inst.mayLoad then 6
          else if inst.ops.any (fun o => match o with | Operand.imm _ => true | _ => false) then 0
          else 7
        else 0
      else 0

/-- Block lookup by index inside a function (a `BinaryBasicBlock *`
dereference). -/
def getBlock (f : Func) (i : Nat) : Option Block := f.blocks.get? i

/-- The "hottest successor" fold shared by the successor-selection code
(source lines 464-471, 480-488, 1385-1396, 1402-1414): scan the
successor list keeping the first successor whose execution count strictly
exceeds every earlier one; `none` when no successor has a positive
count. -/
def hottestSucc (f : Func) (succs : List Nat) : Option Nat :=
  (succs.foldl
    (fun (st : Nat × Option Nat) s =>
      match getBlock f s with
      | some b => if b.execCount > st.1 then (b.execCount, some s) else st
      | none => st)
    (0, none)).2

/-- `getNextBasicBlock` (source lines 454-493): the block a cross-block
walk continues into.  For a conditional branch the fold starts from the
first successor (so a no-profile tie keeps the first); for a fall-through
the fold starts from null and falls back to the first successor; an
unconditional branch ends the walk. -/
def getNextBasicBlock (f : Func) (bIdx : Nat) : Option Nat :=
  match getBlock f bIdx with
  | none => none
  | some b =>
    match b.insts.getLast? with
    | none => none
    | some last =>
      if last.isBranch && !last.isUncondBranch then
        match b.succs with
        | [] => none
        | s0 :: _ =>
          if b.succs.length > 1 then
            match hottestSucc f b.succs with
            | some s => some s
            | none => some s0
          else some s0
      else if !last.isBranch then
        match b.succs with
        | [] => none
        | s0 :: _ =>
          if b.succs.length == 1 then some s0
          else
            match hottestSucc f b.succs with
            | some s => some s
            | none => some s0
      else none

/-- The per-block instruction collection of `extractCrossBlockSequence`
(source lines 608-633): collect instructions of `bbInsts` from position
`curIdx` on, reject-checking each; `none` on a reject, otherwise the
updated position, count and accumulated sequence. -/
def collectInBlock (arch : Bool) (len startIdx : Nat) (bbInsts : List Inst) :
    List Inst → Nat → Nat → List Inst → Option (Nat × Nat × List Inst)
  | [], curIdx, collected, acc => some (curIdx, collected, acc)
  | inst :: rest, curIdx, collected, acc =>
    if collected ≥ len then some (curIdx, collected, acc)
    else
      let isLast := collected == len - 1
      if shouldRejectInstruction arch inst len true isLast bbInsts startIdx curIdx ≠ 0 then
        none
      else
        let acc2 := acc ++ [inst]
        if (inst.isCall || (inst.isBranch && !inst.isUncondBranch)) && isLast then
          some (curIdx + 1, collected + 1, acc2)
        else collectInBlock arch len startIdx bbInsts rest (curIdx + 1) (collected + 1) acc2

/-- The block-walking loop of `extractCrossBlockSequence` (source lines
593-652).  `fuel` is the number of blocks the walk may still enter
(`MAX_CROSS_BLOCKS = 3`); every exit from the loop with fewer than `len`
collected instructions yields the empty sequence. -/
def crossBlockGo (cfg : Config) (f : Func) (len startIdx : Nat) :
    Nat → Nat → Nat → Nat → List Inst → List Inst
  | 0, _, _, collected, acc => if collected < len then [] else acc
  | fuel + 1, curBB, curIdx, collected, acc =>
    if collected ≥ len then acc
    else
      match getBlock f curBB with
      | none => []
      | some b =>
        if b.insts.isEmpty || curIdx ≥ b.insts.length then []
        else if cfg.enablePGO && b.profiled && b.execCount > 1 then []
        else
          match collectInBlock cfg.arch len startIdx b.insts (b.insts.drop curIdx)
              curIdx collected acc with
          | none => []
          | some (curIdx2, collected2, acc2) =>
            if collected2 < len && curIdx2 ≥ b.insts.length then
              match getNextBasicBlock f curBB with
              | none => []
              | some nxt => crossBlockGo cfg f len startIdx fuel nxt 0 collected2 acc2
            else
              if collected2 < len then [] else acc2

/-- `extractCrossBlockSequence` (source lines 573-653): try to build a
window of `len` instructions starting at position `startIdx` of block
`startBB`, walking into successor blocks.  (The hot-start PGO pre-check
of lines 584-591 coincides with the first iteration's per-block check.) -/
def extractCrossBlockSequence (cfg : Config) (f : Func) (startBB startIdx len : Nat) :
    List Inst :=
  crossBlockGo cfg f len startIdx 3 startBB startIdx 0 []

/-- The in-block sliding-window extraction of `getAllseqs` (source lines
689-728): all admitted windows of length `len` of a block whose size is
at least `len`. -/
def singleBlockSeqs (arch : Bool) (bb : Block) (len : Nat) : List (List Inst) :=
  (List.range (bb.insts.length - len + 1)).filterMap (fun i =>
    let window := (bb.insts.drop i).take len
    let rejected := (List.range len).any (fun j =>
      match bb.insts.get? (i + j) with
      | some inst =>
        shouldRejectInstruction arch inst len false (j == len - 1) bb.insts i (i + j) ≠ 0
      | none => true)
    if window.length == len && !rejected then some window else none)

/-- The cross-block section of `getAllseqs` (source lines 731-772):
re-validate each cross-block candidate against the reject vector with
`allowBranch = true`.  NOTE: in the source this section is dead code —
the `continue` at line 687 already skips every block smaller than `len`,
and the guard here requires exactly such a block — but it is translated
for fidelity. -/
def crossBlockSeqs (cfg : Config) (f : Func) (bIdx : Nat) (bb : Block) (len : Nat) :
    List (List Inst) :=
  if 0 < bb.insts.length && bb.insts.length < len then
    (List.range bb.insts.length).filterMap (fun i =>
      let crossSeq := extractCrossBlockSequence cfg f bIdx i len
      if !crossSeq.isEmpty && crossSeq.length == len then
        let rejected := (List.range crossSeq.length).any (fun pos =>
          match crossSeq.get? pos with
          | some inst =>
            shouldRejectInstruction cfg.arch inst len true
              (pos == crossSeq.length - 1) bb.insts i (i + pos) ≠ 0
          | none => true)
        if !rejected then some crossSeq else none
      else none)
  else []

/-- `getAllseqs` (source lines 532-803): the admitted windows of length
`len` of function `f`, in extraction order.  A too-small or too-large
`len` and a function with EH ranges yield nothing; with PGO enabled a
block with known execution count above 1 is skipped; a block smaller
than `len` is skipped by the `continue` at line 687 (which also makes
the cross-block section unreachable). -/
def getAllseqs (cfg : Config) (f : Func) (len : Nat) : List (List Inst) :=
  if len < cfg.minLength || len > cfg.largestLength then []
  else if f.hasEH then []
  else
    f.blocks.enum.foldl
      (fun acc (p : Nat × Block) =>
        let bIdx := p.1
        let bb := p.2
        if bb.insts.isEmpty then acc
        else if cfg.enablePGO && bb.profiled && bb.execCount > 1 then acc
        else if len > bb.insts.length then acc
        else acc ++ singleBlockSeqs cfg.arch bb len ++ crossBlockSeqs cfg f bIdx bb len)
      []

/-- `hasOverlappedInstrs` (source lines 812-822): the two sequences share
a byte-identical instruction. -/
def hasOverlappedInstrs (s1 s2 : List Inst) : Bool :=
  s1.any (fun i1 => s2.any (fun i2 => areInstructionsEqual i1 i2))

/-- Association-list lookup modeling `std::map<uint64_t,uint64_t>::find`. -/
def lookupReg : List (Nat × Nat) → Nat → Option Nat
  | [], _ => none
  | (k, v) :: rest, r => if k == r then some v else lookupReg rest r

/-- `normalizeRegister` (source lines 838-851): SP (31), FP (29) and LR
(30) keep their raw ids; any other register gets the next window-local
normalized id (starting from 1000) on first sight and the recorded id on
later sights. -/
def normalizeRegister (reg : Nat) (regMap : List (Nat × Nat)) (nextRegId : Nat) :
    Nat × List (Nat × Nat) × Nat :=
  if reg == 31 || reg == 29 || reg == 30 then (reg, regMap, nextRegId)
  else
    match lookupReg regMap reg with
    | some v => (v, regMap, nextRegId)
    | none => (nextRegId, (reg, nextRegId) :: regMap, nextRegId + 1)

/-- `2^64`, the modulus of the `uint64_t` hash arithmetic. -/
def U64 : Nat := 2 ^ 64

/-- The FNV-1a prime. -/
def FNVprime : Nat := 1099511628211

/-- The FNV-1a offset basis. -/
def FNVoffset : Nat := 14695981039346656037

/-- One FNV-1a step: `hash ^= x; hash *= FNV_prime;` in `uint64_t`. -/
def hashStep (h x : Nat) : Nat := (Nat.xor h (x % U64)) * FNVprime % U64

/-- State of the `getHash` loop: running hash, window-local register map,
and the next normalized register id. -/
structure HashState where
  h : Nat
  regMap : List (Nat × Nat)
  next : Nat
deriving DecidableEq, Repr

/-- The per-operand hashing of `getHash` (source lines 866-885).  A
register operand is normalized through the window-local map; an
immediate contributes its `uint64_t` cast; an expression contributes the
fixed sentinel `0xDEADBEEF`; an FP immediate contributes
`std::hash<float>` of its value, modeled as the stored bit value (any
fixed function of the operand works the same for every property proved
here). -/
def hashOperand (st : HashState) (o : Operand) : HashState :=
  match o with
  | Operand.reg r =>
    let (v, m2, n2) := normalizeRegister r st.regMap st.next
    { h := hashStep st.h v, regMap := m2, next := n2 }
  | Operand.imm v => { st with h := hashStep st.h (v.emod (2 ^ 64)).toNat }
  | Operand.expr _ => { st with h := hashStep st.h 0xDEADBEEF }
  | Operand.sfp bits => { st with h := hashStep st.h bits }

/-- The per-instruction hashing of `getHash` (source lines 861-886):
opcode first, then each operand. -/
def hashInst (st : HashState) (inst : Inst) : HashState :=
  inst.ops.foldl hashOperand { st with h := hashStep st.h inst.opcode }

/-- `getHash` (source lines 854-889): FNV-1a over the opcode/operand
stream of the window, with registers normalized from 1000 up. -/
def getHash (seq : List Inst) : Nat :=
  (seq.foldl hashInst { h := FNVoffset, regMap := [], next := 1000 }).h

/-- A fully-cleared instruction, the base for the `MCPlusBuilder`
creation helpers below. -/
def blankInst : Inst :=
  { opcode := 0, name := [], ops := [], numDefs := 0, mayLoad := false,
    mayStore := false, isPseudo := false, isCFI := false, isCall := false,
    isIndirectCall := false, isTailCall := false, isReturn := false,
    isBranch := false, isUncondBranch := false, isPush := false,
    isPop := false, isTerminator := false }

/-- `MIB->createReturn`. -/
def mkRet : Inst :=
  { blankInst with
    opcode := 9000
    name := "ret".toList
    isReturn := true
    isTerminator := true }

/-- `MIB->createPushRegisters(FP, lr)`: `stp x29, x30, [sp, #-16]!`.
Its opcode is the `AArch64_STPXpre` constant 1696 that `funcShrinking`
matches against (source lines 1719, 1724). -/
def mkPush (lr : Nat) : Inst :=
  { blankInst with
    opcode := 1696
    name := "stpxpre".toList
    ops := [Operand.reg FPreg, Operand.reg lr]
    mayStore := true
    isPush := true }

/-- `MIB->createPopRegisters(FP, lr)`: `ldp x29, x30, [sp], #16`.
Its opcode is the `AArch64_LDPXpost` constant 1697 of `funcShrinking`. -/
def mkPop (lr : Nat) : Inst :=
  { blankInst with
    opcode := 1697
    name := "ldpxpost".toList
    ops := [Operand.reg FPreg, Operand.reg lr]
    mayLoad := true
    isPop := true }

/-- `MIB->createCall(sym)`: a direct call (`bl sym`). -/
def mkCall (sym : Nat) : Inst :=
  { blankInst with
    opcode := 9001
    name := "bl".toList
    ops := [Operand.expr sym]
    isCall := true }

/-- `MIB->createUncondBranch(sym)`: `b sym`. -/
def mkBranch (sym : Nat) : Inst :=
  { blankInst with
    opcode := 9002
    name := "b".toList
    ops := [Operand.expr sym]
    isBranch := true
    isUncondBranch := true
    isTerminator := true }

/-- The first expression operand's symbol (the
`dyn_cast<MCSymbolRefExpr>` scans of source lines 1250-1258, 1835-1844;
expression operands are symbol references here, so the first expression
operand is the one extracted). -/
def firstExprSym (i : Inst) : Option Nat :=
  i.ops.findSome? (fun o => match o with | Operand.expr s => some s | _ => none)

/-- The conditional-branch redirection of `createFunction` (source lines
976-989): every expression operand is replaced by a reference to the
freshly minted return label. -/
def condBranchRedirect (retLabel : Nat) (inst : Inst) : Inst :=
  { inst with ops := inst.ops.map (fun o =>
      match o with
      | Operand.expr _ => Operand.expr retLabel
      | x => x) }

/-- Result of `createFunction`: the injected function plus the updated
name counter (`OutlinedFunctionCount`) and symbol allocator. -/
structure MkFuncResult where
  func : Func
  ploCounter : Nat
  symCounter : Nat
deriving DecidableEq, Repr

/-- `createFunction` (source lines 892-1029): build the injected
function `PLO_outlined_<n>` from a window.  The host's symbol allocator
is modeled by `symCounter`: the function's own symbol, the entry-block
temp label and (when a conditional branch occurs) the return label are
consecutive fresh ids.  CFI and pseudo instructions are skipped; a
conditional branch is redirected to the return label, which labels a
second block holding a single return; otherwise a return is appended to
the entry block.  Returns `none` for an empty window (the source returns
`nullptr`). -/
def createFunction (seq : List Inst) (ploCounter symCounter : Nat) :
    Option MkFuncResult :=
  if seq.isEmpty then none
  else
    let funcSym := symCounter
    let hasCondBr := seq.any (fun i => i.isBranch && !i.isUncondBranch)
    -- symCounter + 1 is the "outlined_bb" entry label
    let retLabel := symCounter + 2
    let symC := if hasCondBr then symCounter + 3 else symCounter + 2
    let body := seq.filterMap (fun inst =>
      if inst.isCFI || inst.isPseudo then none
      else if inst.isBranch && !inst.isUncondBranch then
        some (condBranchRedirect retLabel inst)
      else some inst)
    let blocks :=
      if hasCondBr then
        [{ insts := body, succs := [], profiled := false, execCount := 0 },
         { insts := [mkRet], succs := [], profiled := false, execCount := 0 }]
      else
        [{ insts := body ++ [mkRet], succs := [], profiled := false, execCount := 0 }]
    some
      { func :=
          { blocks := blocks, hasEH := false, injected := true,
            profiled := false, execCount := 0, optimize := true, sym := funcSym },
        ploCounter := ploCounter + 1, symCounter := symC }

/-- The `isAddSub` detection of the stack fixup (source lines 1116-1134):
the lowered opcode name starts with `add`/`sub` AND contains `sp`. -/
def isAddSubSPName (i : Inst) : Bool :=
  (beginsWith "add".toList i.name || beginsWith "sub".toList i.name) &&
  containsSeq "sp".toList i.name

/-- Does the instruction define SP (an SP operand among the first
`numDefs` operands — source lines 1122-1130)? -/
def definesSPInst (i : Inst) : Bool :=
  (List.range i.ops.length).any (fun k =>
    k < i.numDefs && i.ops.get? k == some (Operand.reg SPreg))

/-- The load/store arm of the fixup's operand loop (source lines
1154-1164): at the first SP operand directly followed by an immediate,
bump that immediate by `adj`.  An SP operand not followed by an
immediate just lets the scan continue, as in the source. -/
def fixOpsLoadStore (adj : Int) : List Operand → List Operand × Bool
  | [] => ([], false)
  | [o] => ([o], false)
  | o :: o2 :: rest =>
    if o == Operand.reg SPreg then
      match o2 with
      | Operand.imm m => (o :: Operand.imm (m + adj) :: rest, true)
      | _ =>
        let r := fixOpsLoadStore adj (o2 :: rest)
        (o :: r.1, r.2)
    else
      let r := fixOpsLoadStore adj (o2 :: rest)
      (o :: r.1, r.2)

/-- Bump the first immediate of the list by `adj` (the inner `j` loop of
the add/sub arm, source lines 1166-1175). -/
def bumpFirstImm (adj : Int) : List Operand → List Operand × Bool
  | [] => ([], false)
  | Operand.imm m :: rest => (Operand.imm (m + adj) :: rest, true)
  | o :: rest =>
    let r := bumpFirstImm adj rest
    (o :: r.1, r.2)

/-- The add/sub arm of the fixup's operand loop: at an SP operand, bump
the first later immediate; if there is none the scan continues to any
later SP operand (as the `!fixed` loop condition of the source does). -/
def fixOpsAddSub (adj : Int) : List Operand → List Operand × Bool
  | [] => ([], false)
  | o :: rest =>
    if o == Operand.reg SPreg then
      let r := bumpFirstImm adj rest
      if r.2 then (o :: r.1, true)
      else
        let r2 := fixOpsAddSub adj rest
        (o :: r2.1, r2.2)
    else
      let r := fixOpsAddSub adj rest
      (o :: r.1, r.2)

/-- `ByteFixOffset` (source line 1106): 32 bytes when the outlined
function is called through a sandwich trampoline (its own 16-byte frame
plus the 16 bytes the sandwich pushed above it), 16 otherwise. -/
def byteFixOffset (sandwich : Bool) : Int := if sandwich then 32 else 16

/-- The per-instruction stack-displacement fixup of `stackFrameManage`
(source lines 1111-1180): load/store instructions and non-SP-defining
`add`/`sub`-with-`sp`-in-the-name instructions get their SP-relative
immediate bumped by `byteFix / scale`; everything else is unchanged.
The boolean reports whether an immediate was bumped (`FixedCount`). -/
def stackFixInst (byteFix : Int) (inst : Inst) : Inst × Bool :=
  let isLoadStore := inst.mayLoad || inst.mayStore
  let isAddSub := isAddSubSPName inst && !definesSPInst inst
  if !isLoadStore && !isAddSub then (inst, false)
  else
    let scale := if isLoadStore then getInstructionScale inst.name else 1
    let adj := byteFix / scale
    if isLoadStore then
      let r := fixOpsLoadStore adj inst.ops
      ({ inst with ops := r.1 }, r.2)
    else
      let r := fixOpsAddSub adj inst.ops
      ({ inst with ops := r.1 }, r.2)

/-- The three flags of the purity detection of `stackFrameManage`
(source lines 1188-1219). -/
structure PurityFlags where
  needsLR : Bool
  usesFP : Bool
  condBr : Bool
deriving DecidableEq, Repr

/-- Does the instruction use FP at a non-definition operand position
(source lines 1204-1214)? -/
def usesFPatUse (i : Inst) : Bool :=
  i.ops.enum.any (fun p => p.2 == Operand.reg FPreg && decide (p.1 ≥ i.numDefs))

/-- Per-block purity scan with the source's early exits: a conditional
branch stops the scan at once; the scan also stops once both `needsLR`
and `usesFP` hold. -/
def purityScan : List Inst → PurityFlags → PurityFlags
  | [], st => st
  | inst :: rest, st =>
    if inst.isBranch && !inst.isUncondBranch then
      { st with condBr := true }
    else
      let st2 : PurityFlags :=
        { needsLR := st.needsLR || inst.isCall,
          usesFP := st.usesFP || usesFPatUse inst, condBr := st.condBr }
      if st2.needsLR && st2.usesFP then st2
      else purityScan rest st2

/-- The purity scan across all blocks, with the same early exit. -/
def purityScanBlocks : List Block → PurityFlags → PurityFlags
  | [], st => st
  | b :: rest, st =>
    let st2 := purityScan b.insts st
    if st2.condBr || (st2.needsLR && st2.usesFP) then st2
    else purityScanBlocks rest st2

/-- Erase the element at index `i` (no-op when out of range). -/
def eraseAt (l : List Inst) (i : Nat) : List Inst := l.take i ++ l.drop (i + 1)

/-- Insert `x` before position `i`. -/
def insertAt (l : List Inst) (i : Nat) (x : Inst) : List Inst :=
  l.take i ++ [x] ++ l.drop i

/-- Erase at the fixed index `i`, `n` times, each attempt guarded by the
source's `idx < size` check. -/
def eraseRepeat (i : Nat) : Nat → List Inst → List Inst
  | 0, l => l
  | n + 1, l => if i < l.length then eraseRepeat i n (eraseAt l i) else eraseRepeat i n l

/-- `stackFrameManage` (source lines 1032-1301): fix the SP-relative
displacements of every instruction (`byteFix` = 32 for a sandwich-called
function, 16 otherwise), skip prologue/epilogue for a pure body, insert
the `stp x29,x30,[sp,#-16]!` prologue, rewrite a trailing direct
`call; ret` into a branch (tail-call optimization; the return alone is
dropped when no target symbol can be extracted), and otherwise insert
the `ldp x29,x30,[sp],#16` epilogue before the first return. -/
def stackFrameManage (arch sandwich : Bool) (f : Func) : Func :=
  if f.blocks.all (fun b => b.insts.isEmpty) then f
  else if !arch then f
  else
    match f.blocks with
    | [] => f
    | bb0 :: _ =>
      if bb0.insts.isEmpty then f
      else
        let byteFix : Int := byteFixOffset sandwich
        let blocks2 := f.blocks.map (fun b =>
          { b with insts := b.insts.map (fun i => (stackFixInst byteFix i).1) })
        let fixedCount :=
          (f.blocks.map (fun b =>
            (b.insts.filter (fun i => (stackFixInst byteFix i).2)).length)).sum
        let hasStackAccess := fixedCount > 0
        let pf := purityScanBlocks blocks2 { needsLR := false, usesFP := false, condBr := false }
        let isPureFunction := !hasStackAccess && !pf.needsLR && !pf.usesFP && !pf.condBr
        if isPureFunction then { f with blocks := blocks2 }
        else
          match blocks2 with
          | [] => f
          | c0 :: crest =>
            let lr := getLinkRegister arch
            let entry := mkPush lr :: c0.insts
            let finish := fun (es : List Inst) =>
              { f with blocks := { c0 with insts := es } :: crest }
            match entry.getLast?, entry.dropLast.getLast? with
            | some retI, some callI =>
              if callI.isCall && retI.isReturn && !callI.isIndirectCall then
                match firstExprSym callI with
                | some tgt => finish (entry.dropLast.dropLast ++ [mkBranch tgt])
                | none => finish entry.dropLast
              else
                let withPop :=
                  match entry.findIdx? (fun i => i.isReturn) with
                  | some k => insertAt entry k (mkPop lr)
                  | none => entry ++ [mkPop lr]
                finish withPop
            | _, _ =>
              let withPop :=
                match entry.findIdx? (fun i => i.isReturn) with
                | some k => insertAt entry k (mkPop lr)
                | none => entry ++ [mkPop lr]
              finish withPop

/-- A located occurrence (`SequenceLocation`): starting block index and
starting instruction index. -/
structure Loc where
  bbIdx : Nat
  startIdx : Nat
deriving DecidableEq, Repr, Inhabited

/-- Does `seq` occur byte-identically in `bbInsts` starting at `i`
(the instruction-by-instruction comparison of source lines 1317-1337)? -/
def seqMatchesAt (bbInsts : List Inst) (seq : List Inst) (i : Nat) : Bool :=
  seq.enum.all (fun p =>
    match bbInsts.get? (i + p.1) with
    | some inst => areInstructionsEqual inst p.2
    | none => false)

/-- `checkCrossBlockMatch` (source lines 1342-1431): try to match `seq`
from position `curIdx` of block `curBB`, walking into at most 3 blocks;
the successor selection (lines 1376-1415) coincides with
`getNextBasicBlock` (the explicit `maxCount == 0` fall-back to the first
successor matches `hottestSucc` returning `none`).  The per-element
inner loop is expressed as one slice comparison per block; a mismatch
anywhere fails exactly as the element-wise loop does.  (The early
`return true` for a window ending in a conditional branch is subsumed:
control also reaches `return matched == SeqLen` in that case.) -/
def crossMatchGo (f : Func) (seq : List Inst) : Nat → Nat → Nat → Nat → Bool
  | 0, _, _, matched => decide (matched ≥ seq.length)
  | fuel + 1, curBB, curIdx, matched =>
    if matched ≥ seq.length then true
    else
      match getBlock f curBB with
      | none => false
      | some b =>
        if b.insts.isEmpty || curIdx ≥ b.insts.length then false
        else
          let avail := b.insts.length - curIdx
          let need := seq.length - matched
          let tk := min avail need
          let ok := (List.range tk).all (fun k =>
            match b.insts.get? (curIdx + k), seq.get? (matched + k) with
            | some a, some s => areInstructionsEqual a s
            | _, _ => false)
          if !ok then false
          else
            let matched2 := matched + tk
            let curIdx2 := curIdx + tk
            if matched2 < seq.length && curIdx2 ≥ b.insts.length then
              match getNextBasicBlock f curBB with
              | none => false
              | some nxt => crossMatchGo f seq fuel nxt 0 matched2
            else decide (matched2 ≥ seq.length)

/-- `findSequenceLocations` (source lines 1304-1453): every (block,
start-index) where the window occurs byte-identically; blocks of size at
least the window length are matched in place, smaller blocks through a
cross-block walk. -/
def findSequenceLocations (f : Func) (seq : List Inst) : List Loc :=
  if seq.isEmpty then []
  else
    f.blocks.enum.foldl
      (fun acc (p : Nat × Block) =>
        let bIdx := p.1
        let bb := p.2
        let single :=
          if bb.insts.length ≥ seq.length then
            (List.range (bb.insts.length - seq.length + 1)).filterMap (fun i =>
              if seqMatchesAt bb.insts seq i then some (Loc.mk bIdx i) else none)
          else []
        let cross :=
          if 0 < bb.insts.length && bb.insts.length < seq.length then
            (List.range bb.insts.length).filterMap (fun i =>
              if crossMatchGo f seq 3 bIdx i 0 then some (Loc.mk bIdx i) else none)
          else []
        acc ++ single ++ cross)
      []

/-- Replace the instructions of block `i` of `f` (out-of-range: no-op). -/
def updBlockInsts (f : Func) (i : Nat) (g : List Inst → List Inst) : Func :=
  match f.blocks.get? i with
  | none => f
  | some b => { f with blocks := f.blocks.set i { b with insts := g b.insts } }

/-- The sandwich-or-bare-call decision the pass makes for an occurrence
(source lines 1510-1513 and 2196-2199): a sandwich is needed when the
host is a real leaf (no call anywhere and not injected) or LR is not
known to be saved at the occurrence. -/
def locNeedsSandwich (arch : Bool) (bf : Func) (loc : Loc) : Bool :=
  let isRealLeaf := isLeafFunction bf && !bf.injected
  let safeToCall := isLRSavedAtPoint arch bf loc.bbIdx loc.startIdx
  isRealLeaf || !safeToCall

/-- The block-range collection of the cross-block replacement (source
lines 1524-1556).  `fuel` is the remaining block budget; `none` means
the replacement is abandoned with no mutation. -/
def collectBlockRanges (f : Func) :
    Nat → Nat → Nat → Nat → List (Nat × Nat) → Option (List (Nat × Nat))
  | 0, _, _, remaining, acc => if remaining > 0 then none else some acc
  | fuel + 1, curBB, curIdx, remaining, acc =>
    if remaining == 0 then some acc
    else
      match getBlock f curBB with
      | none => none
      | some b =>
        let avail := b.insts.length - curIdx
        let toRemove := min remaining avail
        let acc2 := acc ++ [(curBB, curIdx)]
        let remaining2 := remaining - toRemove
        if remaining2 > 0 && curIdx + toRemove ≥ b.insts.length then
          match getNextBasicBlock f curBB with
          | none => none
          | some nxt => collectBlockRanges f fuel nxt 0 remaining2 acc2
        else if remaining2 > 0 then none
        else some acc2

/-- `replaceSequenceWithCall` (source lines 1456-1675): replace one
occurrence with a bare call or a push/call/pop sandwich; on a
non-AArch64 target nothing is mutated (lines 1502-1508).  `SeqLen - 3`
is a `size_t` in the source, so for a window shorter than 3 it wraps to
a huge value and the minimum picks the block-residue count. -/
def replaceSequenceWithCall (arch : Bool) (bf : Func) (seq : List Inst) (loc : Loc)
    (calleeSym : Nat) : Func :=
  if seq.isEmpty then bf
  else
    match getBlock bf loc.bbIdx with
    | none => bf
    | some bb =>
      let startIdx := loc.startIdx
      let seqLen := seq.length
      let isCross := decide (startIdx + seqLen > bb.insts.length)
      if !isCross && (startIdx ≥ bb.insts.length || startIdx + seqLen > bb.insts.length) then bf
      else if isCross && startIdx ≥ bb.insts.length then bf
      else if !arch then bf
      else
        let callInst := mkCall calleeSym
        let isCallerLeaf := locNeedsSandwich arch bf loc
        let lr := getLinkRegister arch
        if isCross then
          match collectBlockRanges bf 3 loc.bbIdx startIdx seqLen [] with
          | none => bf
          | some [] => bf
          | some ((sb, si) :: restRanges) =>
            let bf1 :=
              if isCallerLeaf then
                updBlockInsts bf sb (fun l =>
                  let l1 := l.set si (mkPush lr)
                  let l2 := insertAt l1 (si + 1) callInst
                  let l3 := insertAt l2 (si + 2) (mkPop lr)
                  let cap := if 3 ≤ seqLen then seqLen - 3 else U64 - (3 - seqLen)
                  eraseRepeat (si + 3) (min (l3.length - si - 3) cap) l3)
              else
                updBlockInsts bf sb (fun l =>
                  let l1 := l.set si callInst
                  eraseRepeat (si + 1) (min (l1.length - si - 1) (seqLen - 1)) l1)
            restRanges.foldl
              (fun acc (r : Nat × Nat) =>
                updBlockInsts acc r.1 (fun l =>
                  eraseRepeat r.2 (min (l.length - r.2) seqLen) l))
              bf1
        else
          if isCallerLeaf then
            updBlockInsts bf loc.bbIdx (fun l =>
              let l1 := l.set startIdx (mkPush lr)
              let l2 := insertAt l1 (startIdx + 1) callInst
              let l3 := insertAt l2 (startIdx + 2) (mkPop lr)
              if seqLen > 1 then eraseRepeat (startIdx + 3) (seqLen - 1) l3 else l3)
          else
            updBlockInsts bf loc.bbIdx (fun l =>
              let l1 := l.set startIdx callInst
              if seqLen > 1 then eraseRepeat (startIdx + 1) (seqLen - 1) l1 else l1)

/-- `funcShrinking` (source lines 1688-1745): when the outlined function
has no call or only tail calls, drop a leading `STPXpre` (opcode 1696)
prologue and an `LDPXpost` (opcode 1697) right before the first return,
in every block. -/
def funcShrinking (arch : Bool) (f : Func) : Func :=
  if f.blocks.isEmpty then f
  else if !arch then f
  else
    let hasCalls := f.blocks.any (fun b => b.insts.any (fun i => i.isCall))
    let hasNonTail := f.blocks.any (fun b => b.insts.any (fun i => i.isCall && !i.isTailCall))
    if !hasCalls || !hasNonTail then
      { f with blocks := f.blocks.map (fun b =>
          let l1 :=
            match b.insts with
            | i :: rest => if i.opcode == 1696 then rest else b.insts
            | [] => b.insts
          let l2 :=
            match l1.findIdx? (fun i => i.isReturn) with
            | some k =>
              if k > 0 then
                match l1.get? (k - 1) with
                | some prev => if prev.opcode == 1697 then eraseAt l1 (k - 1) else l1
                | none => l1
              else l1
            | none => l1
          { b with insts := l2 }) }
    else f

/-- The stack-adjustment exemption of `isPureCallSequence` (source lines
1770-1786): an `add`/`sub` whose name mentions `sp` and that defines
SP. -/
def isStackAdjust (i : Inst) : Bool :=
  (beginsWith "add".toList i.name || beginsWith "sub".toList i.name) &&
  containsSeq "sp".toList i.name && definesSPInst i

/-- `isPureCallSequence` (source lines 1748-1798): the function consists
only of pushes, pops, returns, calls and SP-adjustments, and has at
least one call. -/
def isPureCallSequence (f : Func) : Bool :=
  if f.blocks.isEmpty then false
  else
    let hasCall := f.blocks.any (fun b =>
      b.insts.any (fun i => !(i.isPush || i.isPop || i.isReturn) && i.isCall))
    let hasNonCallNonStack := f.blocks.any (fun b =>
      b.insts.any (fun i =>
        !(i.isPush || i.isPop || i.isReturn || i.isCall || isStackAdjust i)))
    hasCall && !hasNonCallNonStack

/-- The direct-call targets of a function (source lines 1830-1847): the
first expression operand's symbol of every direct call, in order. -/
def directCallTargets (f : Func) : List Nat :=
  f.blocks.foldl
    (fun acc b =>
      b.insts.foldl
        (fun acc2 i =>
          if i.isCall && !i.isIndirectCall then
            match firstExprSym i with
            | some s => acc2 ++ [s]
            | none => acc2
          else acc2)
        acc)
    []

/-- Is `i` a direct call targeting symbol `target` (the call-site test of
source lines 1870-1881)? -/
def instTargets (target : Nat) (i : Inst) : Bool :=
  i.isCall && !i.isIndirectCall && i.ops.any (fun o => o == Operand.expr target)

/-- Does any function of the host table call `target` directly? -/
def anyCallSites (fs : List Func) (target : Nat) : Bool :=
  fs.any (fun f => f.blocks.any (fun b => b.insts.any (instTargets target)))

/-- Rewrite every direct call to `target` into a direct call to
`newTarget` (source lines 1901-1915). -/
def rewriteCalls (target newTarget : Nat) (fs : List Func) : List Func :=
  fs.map (fun f => { f with blocks := f.blocks.map (fun b =>
    { b with insts := b.insts.map (fun i =>
        if instTargets target i then mkCall newTarget else i) }) })

/-- One iteration of `removeRedundantIntermediateFunctions` for the
outlined function `g` (with its index in the outlined list): when `g` is
a pure call sequence with exactly one direct-call target and it has call
sites, redirect them to the target and mark `g` ignored. -/
def removeRedundantStep (st : List Func × List Nat) (p : Nat × Func) :
    List Func × List Nat :=
  let gIdx := p.1
  let g := p.2
  if g.blocks.isEmpty then st
  else if !g.injected then st
  else if !isPureCallSequence g then st
  else
    let called := directCallTargets g
    if called.isEmpty then st
    else if !anyCallSites st.1 g.sym then st
    else if called.length == 1 then
      (rewriteCalls g.sym (called.headD 0) st.1, st.2 ++ [gIdx])
    else st

/-- `removeRedundantIntermediateFunctions` (source lines 1801-1942):
fold over the outlined functions, rewriting the host table's call sites
and collecting the indices of the wrappers marked ignored. -/
def removeRedundantIntermediateFunctions (funcs : List Func) (outlined : List Func) :
    List Func × List Nat :=
  outlined.enum.foldl removeRedundantStep (funcs, [])

/-- The per-occurrence execution frequency of the cost model (source
lines 2205-2211): the block's known execution count clamped to at least
1 when PGO is on and the block has a profile, else 1. -/
def locExecFreq (pgo : Bool) (bf : Func) (loc : Loc) : Nat :=
  match getBlock bf loc.bbIdx with
  | some b =>
    if pgo && b.profiled then (if b.execCount == 0 then 1 else b.execCount)
    else 1
  | none => 1

/-- `sandwichCallCount` of the cost loop (source lines 2193-2203). -/
def sandwichCallCount (arch : Bool) (bf : Func) (locs : List Loc) : Nat :=
  (locs.filter (locNeedsSandwich arch bf)).length

/-- `normalCallCount` of the cost loop. -/
def normalCallCount (arch : Bool) (bf : Func) (locs : List Loc) : Nat :=
  (locs.filter (fun l => !locNeedsSandwich arch bf l)).length

/-- `totalExecutionFrequency` (source lines 2205-2216). -/
def totalExecutionFrequency (pgo : Bool) (bf : Func) (locs : List Loc) : Nat :=
  (locs.map (locExecFreq pgo bf)).sum

/-- `weightedFrequency` (source line 2218): the summed clamped block
counts under PGO, the number of locations otherwise. -/
def weightedFrequency (pgo : Bool) (bf : Func) (locs : List Loc) : Nat :=
  if pgo then totalExecutionFrequency pgo bf locs else locs.length

/-- The purity detection of the cost model (source lines 2221-2258): a
window is pure when it has no conditional branch, no load/store naming
SP, no call, and no FP operand at a use position. -/
def isOutlinedFuncPure : List Inst → Bool
  | [] => true
  | inst :: rest =>
    if inst.isBranch && !inst.isUncondBranch then false
    else
      let spMem := (inst.mayLoad || inst.mayStore) &&
        inst.ops.any (fun o => o == Operand.reg SPreg)
      if spMem || inst.isCall || usesFPatUse inst then false
      else isOutlinedFuncPure rest

/-- `outlinedFuncSize` (source lines 2260-2265): `len*4 + 4` for a pure
body, `4 + len*4 + 4 + 4` (prologue + body + epilogue + return)
otherwise. -/
def outlinedFuncSize (pure : Bool) (len : Nat) : Int :=
  if pure then ((len * 4 : Nat) : Int) + 4 else 4 + ((len * 4 : Nat) : Int) + 4 + 4

/-- `MinBenefitThreshold` (source lines 2272-2292). -/
def minBenefitThreshold (pure : Bool) (avgFreq nloc : Nat) : Int :=
  if pure then
    if avgFreq ≥ 3 ∨ nloc ≥ 3 then -4
    else if avgFreq ≥ 2 ∨ nloc ≥ 2 then 0
    else 4
  else
    if avgFreq ≥ 3 ∨ nloc ≥ 3 then 0
    else if avgFreq ≥ 2 ∨ nloc ≥ 2 then 0
    else 0

/-- `avgFreq` (source lines 2273-2274): `freqForThreshold` divided by
the location count (unsigned integer division). -/
def avgFreqFor (cfg : Config) (bf : Func) (locs : List Loc) : Nat :=
  let fft := if cfg.enablePGO then weightedFrequency cfg.enablePGO bf locs
             else locs.length
  fft / (if locs.length > 0 then locs.length else 1)

/-- The admission decision of the cost model (source lines 2260-2304):
outline iff `netBenefit > MinBenefitThreshold` where
`netBenefit = savedBytes - (outlinedFuncSize + totalCallCost)`. -/
def costAdmit (cfg : Config) (len : Nat) (seq : List Inst) (bf : Func)
    (locs : List Loc) : Bool :=
  let pure := isOutlinedFuncPure seq
  let size := outlinedFuncSize pure len
  let totalCallCost : Int :=
    (sandwichCallCount cfg.arch bf locs : Int) * 12 +
    (normalCallCount cfg.arch bf locs : Int) * 4
  let saved : Int := ((len * 4 : Nat) : Int) * (weightedFrequency cfg.enablePGO bf locs : Int)
  let net := saved - (size + totalCallCost)
  decide (net > minBenefitThreshold pure (avgFreqFor cfg bf locs) locs.length)

/-- The per-operand arm of the structural re-check of the grouping loop
(source lines 2116-2144): registers must agree when either side is
SP/FP/LR (hard-coded 31/29/30 in the source), immediates go through the
compatibility predicate, and otherwise the operand kinds among
register/immediate/expression must agree (two soft-float operands agree
vacuously). -/
def deepOperandOk (i1 i2 : Inst) (k : Nat) : Bool :=
  match i1.ops.get? k, i2.ops.get? k with
  | some (Operand.reg r1), some (Operand.reg r2) =>
    if r1 == 31 || r1 == 29 || r1 == 30 || r2 == 31 || r2 == 29 || r2 == 30 then
      r1 == r2
    else true
  | some (Operand.imm _), some (Operand.imm _) => areImmediatesCompatible i1 i2 k k
  | some o1, some o2 =>
    ((match o1 with | Operand.reg _ => true | _ => false) ==
      (match o2 with | Operand.reg _ => true | _ => false)) &&
    ((match o1 with | Operand.imm _ => true | _ => false) ==
      (match o2 with | Operand.imm _ => true | _ => false)) &&
    ((match o1 with | Operand.expr _ => true | _ => false) ==
      (match o2 with | Operand.expr _ => true | _ => false))
  | _, _ => true

/-- The structural deep re-check of the grouping loop (source lines
2101-2151): per position, equal opcode and operand count and compatible
operands. -/
def structuralMatch (s1 s2 : List Inst) : Bool :=
  (List.range s1.length).all (fun k =>
    match s1.get? k, s2.get? k with
    | some a, some b =>
      a.opcode == b.opcode && a.ops.length == b.ops.length &&
      (List.range a.ops.length).all (fun op => deepOperandOk a b op)
    | _, _ => false)

/-- The sequence-equality test of the grouping loop (source lines
2085-2153): hash equality, or — for equal lengths — position-wise
semantic equivalence followed by the structural re-check. -/
def seqsMatch (s1 s2 : List Inst) : Bool :=
  if getHash s1 == getHash s2 then true
  else if s1.length == s2.length then
    let semEquiv := (List.range s1.length).all (fun k =>
      match s1.get? k, s2.get? k with
      | some a, some b => areInstructionsSemanticallyEquivalent a b
      | _, _ => false)
    if semEquiv then structuralMatch s1 s2 else false
  else false

/-- State of the grouping loop for one anchor: the matched window
indices (`CurrentMatches`), the frequency, and the per-function label
set (`LabeledSequences`, a pointer set modeled by window indices). -/
structure GroupState where
  grouped : List Nat
  freq : Nat
  labels : List Nat
deriving DecidableEq, Repr

/-- One iteration of the grouping loop (source lines 2079-2169) for a
candidate index `j`: skip when `seqs[j]` overlaps the anchor; on a match
of an unlabeled, non-overlapping window, claim it and count it. -/
def groupStep (seqs : List (List Inst)) (i : Nat) (st : GroupState) (j : Nat) :
    GroupState :=
  match seqs.get? i, seqs.get? j with
  | some si, some sj =>
    if hasOverlappedInstrs si sj then st
    else if seqsMatch si sj && !(st.labels.contains j) then
      let overlapsAccepted := st.grouped.any (fun m =>
        match seqs.get? m with
        | some sm => hasOverlappedInstrs sm sj
        | none => false)
      if overlapsAccepted then st
      else { grouped := st.grouped ++ [j], freq := st.freq + 1, labels := st.labels ++ [j] }
    else st
  | _, _ => st

/-- The grouping loop for anchor `i` (source lines 2067-2169), starting
from a label set that already contains the anchor. -/
def collectMatches (seqs : List (List Inst)) (i : Nat) (labels : List Nat) :
    GroupState :=
  ((List.range seqs.length).filter (fun j => i < j)).foldl (groupStep seqs i)
    { grouped := [i], freq := 1, labels := labels }

/-- Replacement order (source lines 2326-2330): `std::sort` with
`(a.BB < b.BB) ; (a.StartIndex > b.StartIndex)`; block pointers are
ordered here by layout index. -/
def locLE (a b : Loc) : Bool :=
  a.bbIdx < b.bbIdx || (a.bbIdx == b.bbIdx && a.startIdx ≥ b.startIdx)

/-- Insertion step of `sortLocs`. -/
def insertLoc (x : Loc) : List Loc → List Loc
  | [] => [x]
  | y :: rest => if locLE x y then x :: y :: rest else y :: insertLoc x rest

/-- Insertion sort realizing the replacement order. -/
def sortLocs : List Loc → List Loc
  | [] => []
  | x :: rest => insertLoc x (sortLocs rest)

/-- `InHotFuncs` precomputation (source lines 1960-2009): with PGO on,
the indices of the non-empty optimizable functions whose profile shows
an execution count above 1; functions without profile are not added. -/
def computeHotFuncs (cfg : Config) (funcs : List Func) : List Nat :=
  if cfg.enablePGO then
    funcs.enum.foldl
      (fun acc p =>
        let f := p.2
        if f.blocks.isEmpty || !f.optimize then acc
        else if f.profiled && f.execCount > 1 then acc ++ [p.1]
        else acc)
      []
  else []

/-- State of a per-function episode of the driver: the function being
mutated, the per-function label set, and the pass-global accumulators. -/
structure EpisodeState where
  bf : Func
  labels : List Nat
  injected : List Func
  ploCounter : Nat
  symCounter : Nat
deriving DecidableEq, Repr

/-- One anchor iteration of the driver (source lines 2067-2360): label
the anchor, group, locate, run the cost model, and on admission
synthesize the outlined function and rewrite every located occurrence
(in the sorted order). -/
def anchorStep (cfg : Config) (len : Nat) (seqs : List (List Inst))
    (st : EpisodeState) (i : Nat) : EpisodeState :=
  let labels1 := st.labels ++ [i]
  match seqs.get? i with
  | none => { st with labels := labels1 }
  | some si =>
    let group := collectMatches seqs i labels1
    let locations := findSequenceLocations st.bf si
    if locations.isEmpty then { st with labels := group.labels }
    else if locations.length < group.freq / 2 then { st with labels := group.labels }
    else if costAdmit cfg len si st.bf locations then
      match createFunction si st.ploCounter st.symCounter with
      | none => { st with labels := group.labels }
      | some mk =>
        let needsSandwich := locations.any (locNeedsSandwich cfg.arch st.bf)
        let outlined := stackFrameManage cfg.arch needsSandwich mk.func
        let bf2 := (sortLocs locations).foldl
          (fun acc loc => replaceSequenceWithCall cfg.arch acc si loc outlined.sym)
          st.bf
        { bf := bf2, labels := group.labels,
          injected := st.injected ++ [outlined],
          ploCounter := mk.ploCounter, symCounter := mk.symCounter }
    else { st with labels := group.labels }

/-- Pass-global driver state.  `funcs` is the host's function table,
`injected` the functions registered through
`createInjectedBinaryFunction`, `hotFuncs` the precomputed `InHotFuncs`
set (which the sweep never consults), `ignoredInjected` the wrappers the
intermediate simplifier marked ignored.  `extracted` is an audit trail
with no source counterpart: one `(function index, window count)` entry
per driver call of `getAllseqs`. -/
structure RunState where
  funcs : List Func
  injected : List Func
  ploCounter : Nat
  symCounter : Nat
  hotFuncs : List Nat
  extracted : List (Nat × Nat)
  ignoredInjected : List Nat
deriving DecidableEq, Repr

/-- One per-function episode of the sweep (source lines 2016-2361):
skip empty or non-optimizable functions, clear the label set, extract
the windows, and run the anchor loop. -/
def episodeStep (cfg : Config) (len : Nat) (st : RunState) (k : Nat) : RunState :=
  match st.funcs.get? k with
  | none => st
  | some bf =>
    if bf.blocks.isEmpty || !bf.optimize then st
    else
      let seqs := getAllseqs cfg bf len
      let ep0 : EpisodeState :=
        { bf := bf, labels := [], injected := st.injected,
          ploCounter := st.ploCounter, symCounter := st.symCounter }
      let ep := (List.range seqs.length).foldl (anchorStep cfg len seqs) ep0
      { st with
        funcs := st.funcs.set k ep.bf
        injected := ep.injected
        ploCounter := ep.ploCounter
        symCounter := ep.symCounter
        extracted := st.extracted ++ [(k, seqs.length)] }

/-- The length sweep: `for (int len = LargestLength; len >= minLength; len--)`. -/
def sweepLens (cfg : Config) : List Nat :=
  (List.range (cfg.largestLength + 1 - cfg.minLength)).map
    (fun k => cfg.largestLength - k)

/-- Largest symbol id of an operand (`0` for non-expressions). -/
def opMaxSym (o : Operand) : Nat :=
  match o with | Operand.expr s => s | _ => 0

/-- Largest symbol id referenced by an instruction. -/
def instMaxSym (i : Inst) : Nat := i.ops.foldl (fun m o => max m (opMaxSym o)) 0

/-- Largest symbol id referenced by a block. -/
def blockMaxSym (b : Block) : Nat := b.insts.foldl (fun m i => max m (instMaxSym i)) 0

/-- Largest symbol id referenced by a function (its own symbol
included). -/
def funcMaxSym (f : Func) : Nat :=
  max f.sym (f.blocks.foldl (fun m b => max m (blockMaxSym b)) 0)

/-- Largest symbol id appearing anywhere in the program. -/
def progMaxSym (p : Program) : Nat :=
  p.funcs.foldl (fun m f => max m (funcMaxSym f)) 0

/-- First fresh symbol id.  `MCContext` hands out distinct new symbol
objects; allocating ids strictly above everything in the input models
that object freshness. -/
def symBase (p : Program) : Nat := progMaxSym p + 1

/-- The initial driver state. -/
def initState (cfg : Config) (p : Program) : RunState :=
  { funcs := p.funcs, injected := [], ploCounter := 0, symCounter := symBase p,
    hotFuncs := computeHotFuncs cfg p.funcs, extracted := [],
    ignoredInjected := [] }

/-- The whole pass pipeline (source lines 1944-2372): precompute the hot
set, sweep the lengths over the host's function table, shrink the
outlined functions, and remove redundant intermediate wrappers. -/
def runPass (cfg : Config) (p : Program) : RunState :=
  let st0 := initState cfg p
  let st1 := (sweepLens cfg).foldl
    (fun st len => (List.range st.funcs.length).foldl (episodeStep cfg len) st)
    st0
  let st2 := { st1 with injected := st1.injected.map (funcShrinking cfg.arch) }
  let rr := removeRedundantIntermediateFunctions st2.funcs st2.injected
  { st2 with funcs := rr.1, ignoredInjected := rr.2 }

/-- `runOnFunctions` (source lines 1944-2373): the pass entry point; its
single exit is `return Error::success()`. -/
def runOnFunctions (cfg : Config) (p : Program) : Except Unit RunState :=
  Except.ok (runPass cfg p)

/-! Specification-side definitions and concrete inputs used to settle the
claims. -/

/-- The cost-model contract in the specification's own terms: body size
`4L+4` (pure) / `4L+12` (impure), savings `4·L·F`, cost = body size plus
12 bytes per sandwich occurrence and 4 bytes per bare-call occurrence,
threshold `-4 / 0 / 4` for a pure body by frequency tier and `0` for an
impure body, admission iff `savings - cost > T`. -/
def c1Spec (cfg : Config) (len : Nat) (seq : List Inst) (bf : Func)
    (locs : List Loc) : Prop :=
  let pure := isOutlinedFuncPure seq
  let F : Int := (weightedFrequency cfg.enablePGO bf locs : Int)
  let bodySize : Int := if pure then 4 * (len : Int) + 4 else 4 * (len : Int) + 12
  let cost : Int := bodySize + 12 * (sandwichCallCount cfg.arch bf locs : Int) +
    4 * (normalCallCount cfg.arch bf locs : Int)
  let savings : Int := 4 * (len : Int) * F
  let avg : Nat :=
    (if cfg.enablePGO then weightedFrequency cfg.enablePGO bf locs else locs.length) /
      locs.length
  let T : Int :=
    if pure then
      if avg ≥ 3 ∨ locs.length ≥ 3 then -4
      else if avg ≥ 2 ∨ locs.length ≥ 2 then 0
      else 4
    else 0
  outlinedFuncSize pure len = bodySize ∧
  (costAdmit cfg len seq bf locs = true ↔ savings - cost > T)

/-- A register renaming applied to one operand: general-purpose register
ids go through `π`, every other operand is untouched. -/
def renameOp (π : Nat → Nat) (o : Operand) : Operand :=
  match o with
  | Operand.reg r => Operand.reg (π r)
  | x => x

/-- A register renaming applied to one instruction. -/
def renameInst (π : Nat → Nat) (i : Inst) : Inst :=
  { i with ops := i.ops.map (renameOp π) }

/-- A register renaming applied to a window. -/
def renameSeq (π : Nat → Nat) (s : List Inst) : List Inst :=
  s.map (renameInst π)

/-- The register map after a renaming: every key goes through `π`. -/
def mapRen (π : Nat → Nat) (m : List (Nat × Nat)) : List (Nat × Nat) :=
  m.map (fun q => (π q.1, q.2))

/-- The concrete renaming used as a witness: swap registers 0 and 1. -/
def swap01 (r : Nat) : Nat := if r = 0 then 1 else if r = 1 then 0 else r

/-- The "location follows a return" condition in the claim's terms: the
location sits past a return in its own block, or in a block after one
containing a return. -/
def followsRet (f : Func) (bbIdx startIdx : Nat) : Prop :=
  (∃ b ri inst, getBlock f bbIdx = some b ∧ ri < startIdx ∧
    b.insts.get? ri = some inst ∧ inst.isReturn = true) ∨
  (∃ j bj, j < bbIdx ∧ getBlock f j = some bj ∧
    ∃ inst ∈ bj.insts, inst.isReturn = true)

/-- A plain ALU-like instruction with one general-purpose register
operand, used to build concrete programs. -/
def mkI (o r : Nat) : Inst :=
  { blankInst with
    opcode := o
    name := "movk".toList
    ops := [Operand.reg r]
    numDefs := 1 }

/-- A five-instruction pure window. -/
def seqI : List Inst := [mkI 11 1, mkI 12 2, mkI 13 3, mkI 14 4, mkI 15 5]

/-- A leaf function holding three byte-identical copies of `seqI` in one
block. -/
def progC5 : Program :=
  { funcs := [{ blocks := [{ insts := seqI ++ seqI ++ seqI, succs := [],
                             profiled := false, execCount := 0 }],
                hasEH := false, injected := false, profiled := false,
                execCount := 0, optimize := true, sym := 3 }] }

/-- A run on a non-AArch64 target, window length 5. -/
def cfgC5 : Config :=
  { largestLength := 5, minLength := 5, enablePGO := false, arch := false }

/-- A hot function (profiled execution count 5) with one cold block
(count 1) holding an extractable two-instruction window. -/
def progC6 : Program :=
  { funcs := [{ blocks := [{ insts := [mkI 21 1, mkI 22 2], succs := [],
                             profiled := true, execCount := 1 }],
                hasEH := false, injected := false, profiled := true,
                execCount := 5, optimize := true, sym := 3 }] }

/-- A PGO-filtered AArch64 run, window length 2. -/
def cfgC6 : Config :=
  { largestLength := 2, minLength := 2, enablePGO := true, arch := true }

/-- An indirect call (`blr x5`). -/
def icallC8 : Inst :=
  { blankInst with
    opcode := 9100
    name := "blr".toList
    ops := [Operand.reg 5]
    isCall := true
    isIndirectCall := true }

/-- A synthesized function whose entry block ends in an indirect call
followed by a return. -/
def funcC8 : Func :=
  { blocks := [{ insts := [icallC8, mkRet], succs := [], profiled := false,
                 execCount := 0 }],
    hasEH := false, injected := true, profiled := false, execCount := 0,
    optimize := true, sym := 100 }

/-- The entry block of the direct-tail-call witness function. -/
def blkC8dir : Block :=
  { insts := [{ blankInst with
      opcode := 501
      name := "bl".toList
      ops := [Operand.expr 7]
      isCall := true }, mkRet], succs := [], profiled := false, execCount := 0 }

/-- A synthesized function whose entry block ends in a direct call
followed by a return. -/
def funcC8dir : Func :=
  { blocks := [blkC8dir], hasEH := false, injected := true, profiled := false,
    execCount := 0, optimize := true, sym := 101 }

/-- A conditional branch (tested at the last window position). -/
def condBrC2 : Inst :=
  { blankInst with
    opcode := 200
    name := "bcc".toList
    ops := [Operand.expr 7]
    isBranch := true
    isTerminator := true }

/-- An unconditional branch. -/
def ubrC2 : Inst :=
  { blankInst with
    opcode := 201
    name := "b".toList
    ops := [Operand.expr 7]
    isBranch := true
    isUncondBranch := true
    isTerminator := true }

/-- A load with a non-stack base (`ldr x1, [x2, #3]`). -/
def ldC9a : Inst :=
  { blankInst with
    opcode := 300
    name := "ldrxui".toList
    ops := [Operand.reg 1, Operand.reg 2, Operand.imm 3]
    numDefs := 1
    mayLoad := true }

/-- A load with an SP base (`ldr x1, [sp, #4]`). -/
def ldC9b : Inst :=
  { blankInst with
    opcode := 300
    name := "ldrxui".toList
    ops := [Operand.reg 1, Operand.reg 31, Operand.imm 4]
    numDefs := 1
    mayLoad := true }

/-- An add against SP (`add x0, sp, #8`), whose AArch64 opcode name
`ADDXri` does not contain the substring `sp`. -/
def addSPC4 : Inst :=
  { blankInst with
    opcode := 400
    name := "addxri".toList
    ops := [Operand.reg 0, Operand.reg 31, Operand.imm 8]
    numDefs := 1 }

/-- An SP-based load (`ldr x0, [sp, #1]`, 64-bit scaled, scale 8). -/
def ldSPC4 : Inst :=
  { blankInst with
    opcode := 401
    name := "ldrxui".toList
    ops := [Operand.reg 0, Operand.reg 31, Operand.imm 1]
    numDefs := 1
    mayLoad := true }

/-- A push saving FP/LR, the first instruction of the C7 witness host
(so LR is saved at every later index of the entry block). -/
def lrSaveC7 : Inst :=
  { blankInst with
    opcode := 500
    name := "stpxpre".toList
    ops := [Operand.reg 29, Operand.reg 30]
    mayStore := true
    isPush := true }

/-- A direct call (`bl sym7`), making the C7 host a non-leaf. -/
def callC7 : Inst :=
  { blankInst with
    opcode := 501
    name := "bl".toList
    ops := [Operand.expr 7]
    isCall := true }

/-- The single block of the C7 host. -/
def blkC7 : Block :=
  { insts := [lrSaveC7, callC7, mkI 31 1, mkRet, mkI 32 2],
    succs := [], profiled := false, execCount := 0 }

/-- The C7 host function itself. -/
def funcC7 : Func :=
  { blocks := [blkC7], hasEH := false, injected := false, profiled := false,
    execCount := 0, optimize := true, sym := 3 }

/-! General helper lemmas. -/

theorem foldl_inv {α σ : Type _} (P : σ → Prop) (f : σ → α → σ) :
    ∀ (l : List α) (s : σ), (∀ s a, P s → P (f s a)) → P s → P (l.foldl f s)
  | [], _, _, hs => hs
  | a :: l, s, hstep, hs => foldl_inv P f l (f s a) hstep (hstep s a hs)

theorem list_set_get_self {α : Type _} :
    ∀ (l : List α) (n : Nat) (x : α), l.get? n = some x → l.set n x = l
  | [], _, _, h => by simp at h
  | a :: l, 0, x, h => by simp at h; simp [h]
  | a :: l, n + 1, x, h => by
    simp only [List.get?] at h
    simp [list_set_get_self l n x h]

/-! ### C1: the cost model -/

/-- C1: for every admitted anchor window of length `L` with located
occurrences `O`, the cost model computes body size `4L+4` (pure) /
`4L+12` (impure), savings `4·L·F`, cost = body plus 12 bytes per
sandwich occurrence and 4 per bare call, threshold `-4/0/4` by purity
and frequency tier (0 for every impure body), and the candidate is
outlined iff `savings - cost > T`. -/
theorem c1_cost_model (cfg : Config) (len : Nat) (seq : List Inst) (bf : Func)
    (locs : List Loc) (hne : locs ≠ []) : c1Spec cfg len seq bf locs := by
  have hlen : 0 < locs.length := List.length_pos.mpr hne
  have hsize : outlinedFuncSize (isOutlinedFuncPure seq) len =
      (if isOutlinedFuncPure seq then 4 * (len : Int) + 4 else 4 * (len : Int) + 12) := by
    cases hp : isOutlinedFuncPure seq <;> simp [outlinedFuncSize] <;> push_cast <;> ring
  have havg : avgFreqFor cfg bf locs =
      (if cfg.enablePGO then weightedFrequency cfg.enablePGO bf locs else locs.length) /
        locs.length := by
    unfold avgFreqFor
    rw [if_pos hlen]
  have hthr : minBenefitThreshold (isOutlinedFuncPure seq) (avgFreqFor cfg bf locs)
      locs.length =
      (if isOutlinedFuncPure seq then
        if avgFreqFor cfg bf locs ≥ 3 ∨ locs.length ≥ 3 then (-4 : Int)
        else if avgFreqFor cfg bf locs ≥ 2 ∨ locs.length ≥ 2 then 0
        else 4
      else 0) := by
    cases hp : isOutlinedFuncPure seq <;> simp only [minBenefitThreshold, if_true, if_false,
      Bool.false_eq_true] <;> split_ifs <;> rfl
  unfold c1Spec
  refine ⟨hsize, ?_⟩
  unfold costAdmit
  rw [decide_eq_true_iff, hsize, havg] at *
  constructor <;> intro h <;> rw [← havg] at * <;> push_cast at * <;> nlinarith [h]

/-- Witness for C1 at a concrete input: one pure window, one bare-call
location. -/
theorem c1_cost_model_witness :
    ([Loc.mk 0 0] : List Loc) ≠ [] ∧ c1Spec cfgC6 2 [mkI 21 1, mkI 22 2] funcC7 [Loc.mk 0 0] :=
  ⟨by decide, c1_cost_model cfgC6 2 [mkI 21 1, mkI 22 2] funcC7 [Loc.mk 0 0] (by decide)⟩

/-! ### C2: branch handling of the window reject predicate -/

/-- C2 counterexample: a conditional branch at the last position of a
window is accepted (reject reason 0) even though cross-block extension
is not permitted (`allowBranch = false`), contradicting the claim that
it is rejected without cross-block permission. -/
theorem c2_branch_counterexample :
    condBrC2.isBranch = true ∧ condBrC2.isUncondBranch = false ∧
    shouldRejectInstruction true condBrC2 2 false true [] 0 1 = 0 := by decide

/-- C2 amended: for an instruction reaching the branch check (non-zero
opcode, not pseudo/CFI, not a return, not a call) that is a branch, an
unconditional branch is rejected at every position and a conditional
branch is accepted exactly when it is the last instruction of the
window, regardless of the `allowBranch` argument. -/
theorem c2_branch_amended (arch : Bool) (inst : Inst) (len : Nat)
    (allowBranch isLast : Bool) (bb : List Inst) (s k : Nat)
    (h0 : inst.opcode ≠ 0) (h1 : inst.isPseudo = false) (h2 : inst.isCFI = false)
    (h3 : inst.isReturn = false) (h4 : inst.isCall = false)
    (h5 : inst.isBranch = true) :
    shouldRejectInstruction arch inst len allowBranch isLast bb s k =
      if isLast = true ∧ inst.isUncondBranch = false then 0 else 2 := by
  unfold shouldRejectInstruction
  simp only [h0, h1, h2, h3, h4, h5, beq_iff_eq, if_false, Bool.false_eq_true,
    Bool.or_self, Bool.or_false, Bool.false_or, if_true]
  cases isLast <;> cases hu : inst.isUncondBranch <;> simp [hu, h0]

/-- Witness for C2's amended claim at a concrete conditional branch. -/
theorem c2_branch_amended_witness :
    (condBrC2.opcode ≠ 0 ∧ condBrC2.isPseudo = false ∧ condBrC2.isCFI = false ∧
      condBrC2.isReturn = false ∧ condBrC2.isCall = false ∧
      condBrC2.isBranch = true) ∧
    shouldRejectInstruction true condBrC2 2 true true [] 0 1 =
      if (true : Bool) = true ∧ condBrC2.isUncondBranch = false then 0 else 2 :=
  ⟨by decide,
    c2_branch_amended true condBrC2 2 true true [] 0 1 (by decide) rfl rfl rfl rfl rfl⟩

/-! ### C4: stack-displacement fixup -/

theorem fixOpsLoadStore_spec (adj m : Int) (post : List Operand) :
    ∀ pre : List Operand, (∀ o ∈ pre, o ≠ Operand.reg SPreg) →
    fixOpsLoadStore adj (pre ++ Operand.reg SPreg :: Operand.imm m :: post) =
      (pre ++ Operand.reg SPreg :: Operand.imm (m + adj) :: post, true)
  | [], _ => by simp [fixOpsLoadStore]
  | p :: pre, h => by
    have hp : (p == Operand.reg SPreg) = false := by
      simpa using h p (List.mem_cons_self p pre)
    have ih := fixOpsLoadStore_spec adj m post pre
      (fun o ho => h o (List.mem_cons_of_mem p ho))
    cases pre with
    | nil => simp_all [fixOpsLoadStore]
    | cons q pre2 => simp_all [fixOpsLoadStore]

theorem bumpFirstImm_spec (adj m : Int) (post : List Operand) :
    ∀ mid : List Operand, (∀ o ∈ mid, ∀ v : Int, o ≠ Operand.imm v) →
    bumpFirstImm adj (mid ++ Operand.imm m :: post) =
      (mid ++ Operand.imm (m + adj) :: post, true)
  | [], _ => by simp [bumpFirstImm]
  | p :: mid, h => by
    have ih := bumpFirstImm_spec adj m post mid
      (fun o ho => h o (List.mem_cons_of_mem p ho))
    have hp := h p (List.mem_cons_self p mid)
    cases p with
    | imm v => exact absurd rfl (hp v)
    | reg r => simp [bumpFirstImm, ih]
    | expr s => simp [bumpFirstImm, ih]
    | sfp b => simp [bumpFirstImm, ih]

theorem fixOpsAddSub_spec (adj m : Int) (mid post : List Operand)
    (hmid : ∀ o ∈ mid, ∀ v : Int, o ≠ Operand.imm v) :
    ∀ pre : List Operand, (∀ o ∈ pre, o ≠ Operand.reg SPreg) →
    fixOpsAddSub adj (pre ++ Operand.reg SPreg :: (mid ++ Operand.imm m :: post)) =
      (pre ++ Operand.reg SPreg :: (mid ++ Operand.imm (m + adj) :: post), true)
  | [], _ => by
    simp only [List.nil_append, fixOpsAddSub, beq_self_eq_true, if_true]
    rw [bumpFirstImm_spec adj m post mid hmid]
    simp
  | p :: pre, h => by
    have hp : (p == Operand.reg SPreg) = false := by
      simpa using h p (List.mem_cons_self p pre)
    have ih := fixOpsAddSub_spec adj m mid post hmid pre
      (fun o ho => h o (List.mem_cons_of_mem p ho))
    simp [fixOpsAddSub, hp, ih]

/-- C4 counterexample: `add x0, sp, #8` has AArch64 opcode name `ADDXri`,
which does not contain the substring `sp`, so the fixup leaves its
immediate unchanged although it is an add against SP that does not
define SP — the claim demands `8 + byte_fix/1` there. -/
theorem c4_fixup_counterexample :
    beginsWith "add".toList addSPC4.name = true ∧
    Operand.reg SPreg ∈ addSPC4.ops ∧
    definesSPInst addSPC4 = false ∧
    addSPC4.ops = [Operand.reg 0, Operand.reg SPreg, Operand.imm 8] ∧
    stackFixInst (byteFixOffset false) addSPC4 = (addSPC4, false) := by decide

/-- C4 amended: during stack-displacement fixup, the scale is always one
of 1/2/4/8/16; every SP-based load/store gets its displacement bumped by
`byte_fix / scale`; every `add`/`sub` whose lowercase opcode name also
contains `sp` and that does not define SP gets its first immediate after
SP bumped by `byte_fix` (scale 1); and every other instruction is left
unchanged.  `byte_fix` is 32 under a sandwich call and 16 otherwise. -/
theorem c4_fixup_amended (sandwich : Bool) (inst : Inst) :
    (getInstructionScale inst.name = 1 ∨ getInstructionScale inst.name = 2 ∨
      getInstructionScale inst.name = 4 ∨ getInstructionScale inst.name = 8 ∨
      getInstructionScale inst.name = 16)
    ∧ (∀ pre m post, (inst.mayLoad = true ∨ inst.mayStore = true) →
        inst.ops = pre ++ Operand.reg SPreg :: Operand.imm m :: post →
        (∀ o ∈ pre, o ≠ Operand.reg SPreg) →
        (stackFixInst (byteFixOffset sandwich) inst).1.ops =
          pre ++ Operand.reg SPreg ::
            Operand.imm (m + byteFixOffset sandwich / getInstructionScale inst.name) :: post)
    ∧ (∀ pre mid m post, inst.mayLoad = false → inst.mayStore = false →
        isAddSubSPName inst = true → definesSPInst inst = false →
        inst.ops = pre ++ Operand.reg SPreg :: (mid ++ Operand.imm m :: post) →
        (∀ o ∈ pre, o ≠ Operand.reg SPreg) →
        (∀ o ∈ mid, ∀ v : Int, o ≠ Operand.imm v) →
        (stackFixInst (byteFixOffset sandwich) inst).1.ops =
          pre ++ Operand.reg SPreg :: (mid ++ Operand.imm (m + byteFixOffset sandwich) :: post))
    ∧ (inst.mayLoad = false → inst.mayStore = false →
        ¬(isAddSubSPName inst = true ∧ definesSPInst inst = false) →
        stackFixInst (byteFixOffset sandwich) inst = (inst, false)) := by
  refine ⟨?_, ?_, ?_, ?_⟩
  · unfold getInstructionScale; split_ifs <;> tauto
  · intro pre m post hls hops hpre
    have hls2 : (inst.mayLoad || inst.mayStore) = true := by
      rcases hls with h | h <;> simp [h]
    unfold stackFixInst
    simp only [hls2, Bool.not_true, Bool.false_and, Bool.and_false, if_true,
      Bool.true_or, Bool.or_true, if_false]
    rw [hops, fixOpsLoadStore_spec _ m post pre hpre]
    simp
  · intro pre mid m post hml hms hname hdef hops hpre hmid
    unfold stackFixInst
    simp only [hml, hms, hname, hdef, Bool.or_self, Bool.not_false, Bool.and_true,
      Bool.not_true, Bool.false_or, if_false, if_true, Bool.false_and]
    rw [hops, fixOpsAddSub_spec _ m mid post hmid pre hpre]
    simp
  · intro hml hms hno
    have : (isAddSubSPName inst && !definesSPInst inst) = false := by
      cases ha : isAddSubSPName inst <;> cases hd : definesSPInst inst <;>
        simp_all
    unfold stackFixInst
    simp [hml, hms, this]

/-- Witness for C4's amended claim: `ldr x0, [sp, #1]` (64-bit scaled,
scale 8) with `byte_fix = 16` becomes `ldr x0, [sp, #3]`. -/
theorem c4_fixup_amended_witness :
    (ldSPC4.mayLoad = true ∨ ldSPC4.mayStore = true) ∧
    ldSPC4.ops = [Operand.reg 0] ++ Operand.reg SPreg :: Operand.imm 1 :: [] ∧
    (∀ o ∈ [Operand.reg 0], o ≠ Operand.reg SPreg) ∧
    (stackFixInst (byteFixOffset false) ldSPC4).1.ops =
      [Operand.reg 0] ++ Operand.reg SPreg ::
        Operand.imm (1 + byteFixOffset false / getInstructionScale ldSPC4.name) :: [] := by
  refine ⟨by decide, by decide, by decide, ?_⟩
  exact (c4_fixup_amended false ldSPC4).2.1 [Operand.reg 0] 1 []
    (Or.inl rfl) (by decide) (by decide)

/-! ### C8: tail-call handling in the synthesizer -/

theorem stackFixInst_shape (b : Int) (i : Inst) :
    ∃ ops', (stackFixInst b i).1 = { i with ops := ops' } := by
  unfold stackFixInst
  dsimp only
  split_ifs <;> first | exact ⟨i.ops, rfl⟩ | exact ⟨_, rfl⟩

theorem stackFixInst_isCall (b : Int) (i : Inst) :
    (stackFixInst b i).1.isCall = i.isCall := by
  obtain ⟨o, h⟩ := stackFixInst_shape b i; rw [h]

theorem stackFixInst_isReturn (b : Int) (i : Inst) :
    (stackFixInst b i).1.isReturn = i.isReturn := by
  obtain ⟨o, h⟩ := stackFixInst_shape b i; rw [h]

theorem stackFixInst_isIndirectCall (b : Int) (i : Inst) :
    (stackFixInst b i).1.isIndirectCall = i.isIndirectCall := by
  obtain ⟨o, h⟩ := stackFixInst_shape b i; rw [h]

theorem purityScan_mono : ∀ (l : List Inst) (st : PurityFlags),
    (st.needsLR || st.condBr) = true →
    ((purityScan l st).needsLR || (purityScan l st).condBr) = true
  | [], _, h => h
  | inst :: rest, st, h => by
    unfold purityScan
    dsimp only
    split_ifs with h1 h2
    · simp
    · simp only [Bool.or_eq_true] at h ⊢; tauto
    · exact purityScan_mono rest _ (by simp only [Bool.or_eq_true] at h ⊢; tauto)

theorem purityScan_call : ∀ (l : List Inst) (st : PurityFlags),
    (∃ i ∈ l, i.isCall = true) →
    ((purityScan l st).needsLR || (purityScan l st).condBr) = true
  | [], _, h => by simp at h
  | inst :: rest, st, h => by
    unfold purityScan
    dsimp only
    split_ifs with h1 h2
    · simp
    · simp only [Bool.and_eq_true, Bool.or_eq_true] at h2 ⊢; tauto
    · rcases h with ⟨i, hi, hc⟩
      rcases List.mem_cons.mp hi with rfl | hmem
      · exact purityScan_mono rest _ (by simp [hc])
      · exact purityScan_call rest _ ⟨i, hmem, hc⟩

theorem purityScanBlocks_mono : ∀ (bls : List Block) (st : PurityFlags),
    (st.needsLR || st.condBr) = true →
    ((purityScanBlocks bls st).needsLR || (purityScanBlocks bls st).condBr) = true
  | [], _, h => h
  | b :: rest, st, h => by
    unfold purityScanBlocks
    dsimp only
    split_ifs with h1
    · exact purityScan_mono b.insts st h
    · exact purityScanBlocks_mono rest _ (purityScan_mono b.insts st h)

theorem purityScanBlocks_call : ∀ (bls : List Block) (st : PurityFlags),
    (∃ b ∈ bls, ∃ i ∈ b.insts, i.isCall = true) →
    ((purityScanBlocks bls st).needsLR || (purityScanBlocks bls st).condBr) = true
  | [], _, h => by simp at h
  | b :: rest, st, h => by
    unfold purityScanBlocks
    rcases h with ⟨b2, hb2, hcall⟩
    rcases List.mem_cons.mp hb2 with rfl | hmem
    · have hs := purityScan_call b2.insts st hcall
      dsimp only
      split_ifs with h1
      · exact hs
      · exact purityScanBlocks_mono rest _ hs
    · dsimp only
      split_ifs with h1
      · rcases Bool.or_eq_true_iff.mp h1 with hc | hc
        · simp [hc]
        · simp only [Bool.and_eq_true] at hc
          simp [hc.1]
      · exact purityScanBlocks_call rest _ ⟨b2, hmem, hcall⟩

theorem findIdx_ret_append_go (rr : Inst) (l3 : List Inst) (hr : rr.isReturn = true) :
    ∀ (l1 : List Inst) (s : Nat), (∀ y ∈ l1, y.isReturn = false) →
    List.findIdx? (fun i => i.isReturn) (l1 ++ rr :: l3) s = some (s + l1.length)
  | [], s, _ => by simp [List.findIdx?, hr]
  | y :: l, s, h1 => by
    have hy : y.isReturn = false := h1 y (List.mem_cons_self y l)
    rw [List.cons_append]
    simp only [List.findIdx?, hy, Bool.false_eq_true, if_false]
    rw [findIdx_ret_append_go rr l3 hr l (s + 1) (fun z hz => h1 z (List.mem_cons_of_mem y hz))]
    simp
    omega

theorem findIdx_ret_append (l1 : List Inst) (rr : Inst) (l3 : List Inst)
    (h1 : ∀ y ∈ l1, y.isReturn = false) (hr : rr.isReturn = true) :
    (l1 ++ rr :: l3).findIdx? (fun i => i.isReturn) = some l1.length := by
  have := findIdx_ret_append_go rr l3 hr l1 0 h1
  simpa using this

theorem insertAt_append_len (l1 : List Inst) (l2 : List Inst) (x : Inst) :
    insertAt (l1 ++ l2) l1.length x = l1 ++ x :: l2 := by
  unfold insertAt
  rw [List.take_left, List.drop_left]
  simp

/-- C8 counterexample: a synthesized body ending in an indirect call
followed by a return keeps its return — the pass inserts the epilogue
before it instead of dropping it. -/
theorem c8_tailcall_counterexample :
    icallC8.isCall = true ∧ icallC8.isIndirectCall = true ∧
    funcC8.blocks.map Block.insts = [[icallC8, mkRet]] ∧
    (stackFrameManage true false funcC8).blocks.map Block.insts =
      [[mkPush 30, icallC8, mkPop 30, mkRet]] := by decide

/-- C8 amended: for a synthesized function whose entry block ends in a
call followed by a return, after the displacement fixup: a direct call
with an extractable target symbol is rewritten to an unconditional
branch to that symbol and the return is dropped (no epilogue); a direct
call without an extractable symbol keeps the call and only drops the
return; an indirect call is left in place, the return stays, and the
epilogue is inserted before it. -/
theorem c8_tailcall_amended (sandwich : Bool) (f : Func) (b : Block)
    (body : List Inst) (c r : Inst)
    (hb : f.blocks = [b]) (hinsts : b.insts = body ++ [c, r])
    (hc : c.isCall = true) (hcr : c.isReturn = false) (hr : r.isReturn = true)
    (hnr : ∀ x ∈ body, x.isReturn = false) :
    (c.isIndirectCall = false →
      ∀ tgt, firstExprSym (stackFixInst (byteFixOffset sandwich) c).1 = some tgt →
      (stackFrameManage true sandwich f).blocks.map Block.insts =
        [mkPush 30 :: body.map (fun i => (stackFixInst (byteFixOffset sandwich) i).1) ++
          [mkBranch tgt]])
    ∧ (c.isIndirectCall = false →
      firstExprSym (stackFixInst (byteFixOffset sandwich) c).1 = none →
      (stackFrameManage true sandwich f).blocks.map Block.insts =
        [mkPush 30 :: body.map (fun i => (stackFixInst (byteFixOffset sandwich) i).1) ++
          [(stackFixInst (byteFixOffset sandwich) c).1]])
    ∧ (c.isIndirectCall = true →
      (stackFrameManage true sandwich f).blocks.map Block.insts =
        [mkPush 30 :: body.map (fun i => (stackFixInst (byteFixOffset sandwich) i).1) ++
          [(stackFixInst (byteFixOffset sandwich) c).1, mkPop 30,
           (stackFixInst (byteFixOffset sandwich) r).1]]) := by
  set bfx := byteFixOffset sandwich with hbfx
  set fix := fun i => (stackFixInst bfx i).1 with hfix
  have hne : b.insts.isEmpty = false := by
    rw [hinsts]; cases body <;> simp
  have hmap : b.insts.map fix = body.map fix ++ [fix c, fix r] := by
    rw [hinsts]; simp
  have hcall2 : (fix c).isCall = true := by rw [hfix]; rw [stackFixInst_isCall]; exact hc
  have hret2 : (fix r).isReturn = true := by rw [hfix]; rw [stackFixInst_isReturn]; exact hr
  have hcr2 : (fix c).isReturn = false := by rw [hfix]; rw [stackFixInst_isReturn]; exact hcr
  have hind2 : (fix c).isIndirectCall = c.isIndirectCall := by
    rw [hfix]; rw [stackFixInst_isIndirectCall]
  have hblocks2 : f.blocks.map (fun bl => { bl with insts := bl.insts.map fix }) =
      [{ b with insts := body.map fix ++ [fix c, fix r] }] := by
    rw [hb]; simp [hmap]
  have hpure : ((purityScanBlocks [{ b with insts := body.map fix ++ [fix c, fix r] }]
      { needsLR := false, usesFP := false, condBr := false }).needsLR ||
      (purityScanBlocks [{ b with insts := body.map fix ++ [fix c, fix r] }]
      { needsLR := false, usesFP := false, condBr := false }).condBr) = true := by
    apply purityScanBlocks_call
    exact ⟨_, List.mem_singleton.mpr rfl, fix c, by simp, hcall2⟩
  -- the entry block after the prologue
  have hentry : mkPush 30 :: (body.map fix ++ [fix c, fix r]) =
      (mkPush 30 :: body.map fix ++ [fix c]) ++ [fix r] := by simp
  have hlast : ((mkPush 30 :: body.map fix ++ [fix c]) ++ [fix r]).getLast? =
      some (fix r) := List.getLast?_concat _
  have hdrop : ((mkPush 30 :: body.map fix ++ [fix c]) ++ [fix r]).dropLast =
      mkPush 30 :: body.map fix ++ [fix c] := List.dropLast_concat
  have hlast2 : (mkPush 30 :: body.map fix ++ [fix c]).getLast? = some (fix c) := by
    have : mkPush 30 :: body.map fix ++ [fix c] =
        (mkPush 30 :: body.map fix) ++ [fix c] := by simp
    rw [this]; exact List.getLast?_concat _
  have hnr2 : ∀ y ∈ mkPush 30 :: body.map fix ++ [fix c], y.isReturn = false := by
    intro y hy
    rcases List.mem_cons.mp hy with rfl | hy2
    · rfl
    · rcases List.mem_append.mp hy2 with hy3 | hy4
      · obtain ⟨z, hz, rfl⟩ := List.mem_map.mp hy3
        rw [hfix, stackFixInst_isReturn]; exact hnr z hz
      · rw [List.mem_singleton.mp hy4]; exact hcr2
  have hfind : (mkPush 30 :: (body.map fix ++ [fix c, fix r])).findIdx?
        (fun i => i.isReturn) = some (mkPush 30 :: body.map fix ++ [fix c]).length := by
    rw [hentry]
    have := findIdx_ret_append (mkPush 30 :: body.map fix ++ [fix c]) (fix r) [] hnr2 hret2
    simpa using this
  refine ⟨?_, ?_, ?_⟩
  · intro hcase tgt htgt
    unfold stackFrameManage
    rw [hb]
    simp only [List.all_cons, List.all_nil, hne, Bool.and_true, Bool.false_eq_true,
      if_false, Bool.not_true, Bool.not_false, if_true]
    simp only [← hbfx, ← hfix, hmap]
    rw [if_neg ?hpure1]
    case hpure1 =>
      intro habs
      rcases Bool.or_eq_true_iff.mp hpure with hx | hx <;> simp_all
    simp only [List.map_cons, List.map_nil]
    have hlr : getLinkRegister true = 30 := rfl
    simp only [hlr]
    rw [hmap, hentry, hlast, hdrop, hlast2]
    dsimp only
    have htgt2 : firstExprSym (fix c) = some tgt := htgt
    simp only [hcall2, hret2, hind2, hcase, Bool.not_false, Bool.and_true, Bool.true_and,
      Bool.and_self, if_true, htgt2]
    have hsplit : mkPush 30 :: body.map fix ++ [fix c] =
        (mkPush 30 :: body.map fix) ++ [fix c] := by simp
    rw [hsplit, List.dropLast_concat]
    simp
  · intro hcase hnone
    unfold stackFrameManage
    rw [hb]
    simp only [List.all_cons, List.all_nil, hne, Bool.and_true, Bool.false_eq_true,
      if_false, Bool.not_true, Bool.not_false, if_true]
    simp only [← hbfx, ← hfix, hmap]
    rw [if_neg ?hpure2]
    case hpure2 =>
      intro habs
      rcases Bool.or_eq_true_iff.mp hpure with hx | hx <;> simp_all
    simp only [List.map_cons, List.map_nil]
    have hlr : getLinkRegister true = 30 := rfl
    simp only [hlr]
    rw [hmap, hentry, hlast, hdrop, hlast2]
    dsimp only
    have hnone2 : firstExprSym (fix c) = none := hnone
    simp only [hcall2, hret2, hind2, hcase, Bool.not_false, Bool.and_true, Bool.true_and,
      Bool.and_self, if_true, hnone2]
    simp
  · intro hcase
    unfold stackFrameManage
    rw [hb]
    simp only [List.all_cons, List.all_nil, hne, Bool.and_true, Bool.false_eq_true,
      if_false, Bool.not_true, Bool.not_false, if_true]
    simp only [← hbfx, ← hfix, hmap]
    rw [if_neg ?hpure3]
    case hpure3 =>
      intro habs
      rcases Bool.or_eq_true_iff.mp hpure with hx | hx <;> simp_all
    simp only [List.map_cons, List.map_nil]
    have hlr : getLinkRegister true = 30 := rfl
    simp only [hlr]
    rw [hmap, hentry, hlast, hdrop, hlast2]
    dsimp only
    simp only [hcall2, hret2, hind2, hcase, Bool.and_false, Bool.false_and,
      Bool.not_true]
    rw [if_neg Bool.false_ne_true]
    rw [findIdx_ret_append (mkPush 30 :: body.map fix ++ [fix c]) (fix r) [] hnr2 hret2]
    dsimp only
    rw [insertAt_append_len (mkPush 30 :: body.map fix ++ [fix c]) [fix r] (mkPop 30)]
    simp

/-- Witness for C8's amended claim: a direct `bl sym7; ret` body becomes
`b sym7` after the prologue, with the return dropped and no epilogue. -/
theorem c8_tailcall_amended_witness :
    (funcC8dir.blocks = [blkC8dir] ∧ blkC8dir.insts = [] ++ [callC7, mkRet] ∧
      callC7.isCall = true ∧ callC7.isReturn = false ∧ mkRet.isReturn = true ∧
      callC7.isIndirectCall = false) ∧
    (stackFrameManage true false funcC8dir).blocks.map Block.insts =
      [mkPush 30 :: ([] : List Inst).map (fun i => (stackFixInst (byteFixOffset false) i).1) ++
        [mkBranch 7]] := by
  refine ⟨by decide, ?_⟩
  exact (c8_tailcall_amended false funcC8dir blkC8dir [] callC7 mkRet rfl rfl rfl rfl rfl
    (by intro x hx; simp at hx)).1 rfl 7 (by decide)

/-! ### C9: immediate compatibility -/

/-- C9 counterexample: for the pair (`ldr x1,[x2,#3]`, `ldr x1,[sp,#4]`)
— two memory-accessing instructions whose addressing uses SP through the
second instruction — the predicate accepts the unequal immediates 3 and
4, because the SP/FP exactness scan only looks at the FIRST
instruction's operands. -/
theorem c9_imm_compat_counterexample :
    ldC9a.mayLoad = true ∧ ldC9b.mayLoad = true ∧
    ldC9b.ops.get? 1 = some (Operand.reg SPreg) ∧
    ldC9a.ops.get? 2 = some (Operand.imm 3) ∧
    ldC9b.ops.get? 2 = some (Operand.imm 4) ∧
    areImmediatesCompatible ldC9a ldC9b 2 2 = true := by decide

set_option maxHeartbeats 1600000 in
/-- C9 amended: at matching operand positions holding immediates, the
predicate accepts iff the values are equal, or — unless both
instructions access memory and the FIRST instruction's operands name SP
or FP — both are shift opcodes with values differing by at most 1, or
both values lie in [-15, 15] and differ by at most 1. -/
theorem c9_imm_compat_amended (i1 i2 : Inst) (k : Nat) (v1 v2 : Int)
    (h1 : i1.ops.get? k = some (Operand.imm v1))
    (h2 : i2.ops.get? k = some (Operand.imm v2)) :
    areImmediatesCompatible i1 i2 k k = true ↔
      (v1 = v2 ∨
        (¬(((i1.mayLoad || i1.mayStore) && (i2.mayLoad || i2.mayStore)) = true ∧
            usesSPorFP i1 = true) ∧
          ((isShiftName i1.name = true ∧ isShiftName i2.name = true ∧
              (v1 - v2).natAbs ≤ 1) ∨
            (v1.natAbs ≤ 15 ∧ v2.natAbs ≤ 15 ∧ (v1 - v2).natAbs ≤ 1)))) := by
  have hlt1 : k < i1.ops.length := by
    by_contra h
    rw [List.get?_eq_none.mpr (Nat.le_of_not_lt h)] at h1
    exact Option.noConfusion h1
  have hlt2 : k < i2.ops.length := by
    by_contra h
    rw [List.get?_eq_none.mpr (Nat.le_of_not_lt h)] at h2
    exact Option.noConfusion h2
  unfold areImmediatesCompatible
  rw [h1, h2]
  rw [if_neg (by simp; omega)]
  dsimp only
  by_cases he : v1 = v2
  · simp [he]
  · have hbe : (v1 == v2) = false := by simp [he]
    rw [hbe]
    simp only [Bool.false_eq_true, if_false]
    have hml1 := Bool.eq_false_or_eq_true i1.mayLoad
    have hms1 := Bool.eq_false_or_eq_true i1.mayStore
    have hml2 := Bool.eq_false_or_eq_true i2.mayLoad
    have hms2 := Bool.eq_false_or_eq_true i2.mayStore
    rcases Bool.eq_false_or_eq_true
        (((i1.mayLoad || i1.mayStore) && (i2.mayLoad || i2.mayStore)) &&
          usesSPorFP i1) with hAB | hAB <;>
      rcases Bool.eq_false_or_eq_true (isShiftName i1.name && isShiftName i2.name)
        with hS | hS <;>
      by_cases hd : (v1 - v2).natAbs ≤ 1 <;>
      by_cases h151 : v1.natAbs ≤ 15 <;>
      by_cases h152 : v2.natAbs ≤ 15 <;>
      simp_all <;>
      first
        | tauto
        | (rcases Bool.eq_false_or_eq_true i1.mayLoad with hq1 | hq1 <;>
            rcases Bool.eq_false_or_eq_true i2.mayLoad with hq2 | hq2 <;>
            rcases Bool.eq_false_or_eq_true i1.mayStore with hq3 | hq3 <;>
            rcases Bool.eq_false_or_eq_true i2.mayStore with hq4 | hq4 <;>
            simp_all <;> tauto)

/-- Witness for C9's amended claim, with SP in the FIRST instruction:
(`ldr x1,[sp,#4]`, `ldr x1,[x2,#3]`) is rejected. -/
theorem c9_imm_compat_amended_witness :
    ldC9b.ops.get? 2 = some (Operand.imm 4) ∧
    ldC9a.ops.get? 2 = some (Operand.imm 3) ∧
    (areImmediatesCompatible ldC9b ldC9a 2 2 = true ↔
      ((4 : Int) = 3 ∨
        (¬(((ldC9b.mayLoad || ldC9b.mayStore) && (ldC9a.mayLoad || ldC9a.mayStore)) = true ∧
            usesSPorFP ldC9b = true) ∧
          ((isShiftName ldC9b.name = true ∧ isShiftName ldC9a.name = true ∧
              ((4 : Int) - 3).natAbs ≤ 1) ∨
            ((4 : Int).natAbs ≤ 15 ∧ (3 : Int).natAbs ≤ 15 ∧
              ((4 : Int) - 3).natAbs ≤ 1))))) :=
  ⟨by decide, by decide, c9_imm_compat_amended ldC9b ldC9a 2 4 3 (by decide) (by decide)⟩

/-! ### C7: the sandwich/bare-call decision -/

theorem findIdx_le_of_get (p : Inst → Bool) :
    ∀ (l : List Inst) (ri : Nat) (x : Inst),
      l.get? ri = some x → p x = true → l.findIdx p ≤ ri
  | [], ri, x, h, _ => by simp at h
  | a :: l, 0, x, h, hp => by
    simp only [List.get?] at h
    cases h
    simp [List.findIdx_cons, hp]
  | a :: l, ri + 1, x, h, hp => by
    simp only [List.get?] at h
    rw [List.findIdx_cons]
    cases hpa : p a
    · simpa using Nat.succ_le_succ (findIdx_le_of_get p l ri x h hp)
    · simp

theorem retPhaseUnsafe_earlier (bbIdx start : Nat) :
    ∀ (bls : List Block) (j0 : Nat),
      (∃ t b2, bls.get? t = some b2 ∧ j0 + t < bbIdx ∧
        ∃ i ∈ b2.insts, i.isReturn = true) →
      retPhaseUnsafe bbIdx start j0 bls = true
  | [], _, h => by
    obtain ⟨t, b2, hg, _, _⟩ := h
    simp at hg
  | b :: rest, j0, h => by
    obtain ⟨t, b2, hg, hlt, i, hi, hret⟩ := h
    have hretb : ∀ t2, t2 = 0 → t = 0 → b.insts.any (fun x => x.isReturn) = true := by
      intro _ _ ht
      subst ht
      simp only [List.get?] at hg
      cases hg
      exact List.any_eq_true.mpr ⟨i, hi, hret⟩
    unfold retPhaseUnsafe
    cases t with
    | zero =>
      have hj0 : j0 < bbIdx := by omega
      have hr : b.insts.any (fun x => x.isReturn) = true := hretb 0 rfl rfl
      have hne : (j0 == bbIdx) = false := by simp; omega
      simp [hr, hne]
    | succ t2 =>
      have hj0 : j0 < bbIdx := by omega
      have hne : (j0 == bbIdx) = false := by simp; omega
      simp only [List.get?] at hg
      cases hr : b.insts.any (fun x => x.isReturn)
      · simp only [hr, Bool.false_and, Bool.false_eq_true, if_false, hne]
        exact retPhaseUnsafe_earlier bbIdx start rest (j0 + 1)
          ⟨t2, b2, hg, by omega, i, hi, hret⟩
      · simp [hr, hne]

theorem retPhaseUnsafe_inBlock (bbIdx start : Nat) :
    ∀ (bls : List Block) (j0 t : Nat) (b2 : Block),
      bls.get? t = some b2 → j0 + t = bbIdx →
      (∀ t2 b3, t2 < t → bls.get? t2 = some b3 →
        ∀ i ∈ b3.insts, i.isReturn = false) →
      (∃ ri inst, ri < start ∧ b2.insts.get? ri = some inst ∧ inst.isReturn = true) →
      retPhaseUnsafe bbIdx start j0 bls = true
  | [], _, t, b2, hg, _, _, _ => by simp at hg
  | b :: rest, j0, 0, b2, hg, hj, _, hret => by
    simp only [List.get?] at hg
    obtain rfl : b = b2 := Option.some.inj hg
    obtain ⟨ri, inst, hri, hgi, hrte⟩ := hret
    have hr : b.insts.any (fun x => x.isReturn) = true :=
      List.any_eq_true.mpr ⟨inst, List.get?_mem hgi, hrte⟩
    have hje : (j0 == bbIdx) = true := by simp; omega
    unfold retPhaseUnsafe
    simp only [hr, hje, Bool.and_self, if_true, decide_eq_true_eq]
    calc b.insts.findIdx (fun i => i.isReturn) ≤ ri :=
          findIdx_le_of_get _ b.insts ri inst hgi hrte
      _ < start := hri
  | b :: rest, j0, t + 1, b2, hg, hj, hclean, hret => by
    simp only [List.get?] at hg
    have hnor : ∀ i ∈ b.insts, i.isReturn = false := by
      intro i hi
      exact hclean 0 b (Nat.succ_pos t) rfl i hi
    have hr : b.insts.any (fun x => x.isReturn) = false := by
      rw [List.any_eq_false]
      intro i hi
      simp [hnor i hi]
    have hne : (j0 == bbIdx) = false := by simp; omega
    unfold retPhaseUnsafe
    simp only [hr, Bool.false_and, Bool.false_eq_true, if_false, hne]
    exact retPhaseUnsafe_inBlock bbIdx start rest (j0 + 1) t b2 hg (by omega)
      (fun t2 b3 h2 hg2 => hclean (t2 + 1) b3 (by omega) hg2) hret

/-- C7: an occurrence needs the sandwich trampoline iff the host is a
real leaf (no call anywhere, not injected — and occurrences live in
non-injected originals) or LR is not known to be saved at the
occurrence; and any occurrence positioned after a return (past a ret in
its block, or in a block after one containing a ret) is forced to the
sandwich path. -/
theorem c7_sandwich_choice (arch : Bool) (bf : Func) (loc : Loc)
    (hinj : bf.injected = false) :
    (locNeedsSandwich arch bf loc = true ↔
      (isLeafFunction bf = true ∨
        isLRSavedAtPoint arch bf loc.bbIdx loc.startIdx = false)) ∧
    (followsRet bf loc.bbIdx loc.startIdx → locNeedsSandwich arch bf loc = true) := by
  constructor
  · unfold locNeedsSandwich
    rw [hinj]
    cases hL : isLeafFunction bf <;>
      cases hS : isLRSavedAtPoint arch bf loc.bbIdx loc.startIdx <;> simp
  · intro hfr
    have hretuns : retPhaseUnsafe loc.bbIdx loc.startIdx 0 bf.blocks = true := by
      rcases hfr with ⟨b, ri, inst, hgb, hri, hgi, hret⟩ | ⟨j, bj, hj, hgj, i, hi, hret⟩
      · by_cases hearl : ∃ t b2, bf.blocks.get? t = some b2 ∧ 0 + t < loc.bbIdx ∧
            ∃ i ∈ b2.insts, i.isReturn = true
        · exact retPhaseUnsafe_earlier loc.bbIdx loc.startIdx bf.blocks 0 hearl
        · push_neg at hearl
          refine retPhaseUnsafe_inBlock loc.bbIdx loc.startIdx bf.blocks 0 loc.bbIdx b
            hgb (by omega) ?_ ⟨ri, inst, hri, hgi, hret⟩
          intro t2 b3 ht2 hg2 i hi
          by_contra hcon
          exact absurd (hearl t2 b3 hg2 (by omega) i hi)
            (by simpa using hcon)
      · exact retPhaseUnsafe_earlier loc.bbIdx loc.startIdx bf.blocks 0
          ⟨j, bj, hgj, by omega, i, hi, hret⟩
    have hsaved : isLRSavedAtPoint arch bf loc.bbIdx loc.startIdx = false := by
      unfold isLRSavedAtPoint
      have hne : bf.blocks ≠ [] := by
        rcases hfr with ⟨b, _, _, hgb, _⟩ | ⟨j, bj, _, hgj, _⟩
        · intro habs; simp [getBlock, habs] at hgb
        · intro habs; simp [getBlock, habs] at hgj
      cases hbl : bf.blocks with
      | nil => exact absurd hbl hne
      | cons e rest =>
        rw [hbl] at hretuns
        simp [hretuns]
    unfold locNeedsSandwich
    rw [hsaved]
    simp

/-- Witness for C7 at a concrete host and location. -/
theorem c7_sandwich_choice_witness :
    funcC7.injected = false ∧
    followsRet funcC7 0 4 ∧
    locNeedsSandwich true funcC7 (Loc.mk 0 4) = true := by
  have hfr : followsRet funcC7 0 4 :=
    Or.inl ⟨blkC7, 3, mkRet, rfl, by decide, by decide, rfl⟩
  exact ⟨rfl, hfr, (c7_sandwich_choice true funcC7 (Loc.mk 0 4) rfl).2 hfr⟩

/-! ### C10: overlap detection and self-overlap of identical copies -/

theorem areInstructionsEqual_refl (i : Inst) : areInstructionsEqual i i = true := by
  unfold areInstructionsEqual
  have : ∀ ops : List Operand, operandsEq ops ops = true := by
    intro ops
    induction ops with
    | nil => rfl
    | cons o t ih => simp [operandsEq, ih]
  simp [this]

theorem hasOverlapped_of_shared (s1 s2 : List Inst) (x y : Inst)
    (hx : x ∈ s1) (hy : y ∈ s2) (heq : areInstructionsEqual x y = true) :
    hasOverlappedInstrs s1 s2 = true := by
  unfold hasOverlappedInstrs
  exact List.any_eq_true.mpr ⟨x, hx, List.any_eq_true.mpr ⟨y, hy, heq⟩⟩

theorem groupStep_not_mem (seqs : List (List Inst)) (i j : Nat) (si sj : List Inst)
    (hi : seqs.get? i = some si) (hj : seqs.get? j = some sj)
    (hov : hasOverlappedInstrs si sj = true) :
    ∀ (st : GroupState) (k : Nat), j ∉ st.grouped → j ∉ (groupStep seqs i st k).grouped := by
  intro st k hnot
  unfold groupStep
  by_cases hkj : k = j
  · subst hkj
    simp only [hi, hj]
    rw [if_pos hov]
    exact hnot
  · cases hgi : seqs.get? i with
    | none => exact hnot
    | some a =>
      cases hgj : seqs.get? k with
      | none => exact hnot
      | some b =>
        dsimp only
        split_ifs with hc1 hc2 hc3
        · exact hnot
        · exact hnot
        · intro hmem
          rcases List.mem_append.mp hmem with hx | hx
          · exact hnot hx
          · exact hkj (List.mem_singleton.mp hx).symm
        · exact hnot

/-- C10: (i) any two windows sharing a byte-identical instruction
overlap; (ii) every non-empty window overlaps itself; (iii) a later
window that is an exact copy of the anchor is never added to the
anchor's match group. -/
theorem c10_overlap_grouping (seqs : List (List Inst)) (i j : Nat)
    (s : List Inst) (labels : List Nat)
    (hi : seqs.get? i = some s) (hj : seqs.get? j = some s)
    (hne : s ≠ []) (hij : i < j) :
    (∀ s1 s2 : List Inst, ∀ x ∈ s1, ∀ y ∈ s2,
      areInstructionsEqual x y = true → hasOverlappedInstrs s1 s2 = true) ∧
    (∀ s1 : List Inst, s1 ≠ [] → hasOverlappedInstrs s1 s1 = true) ∧
    j ∉ (collectMatches seqs i labels).grouped := by
  have hself : ∀ s1 : List Inst, s1 ≠ [] → hasOverlappedInstrs s1 s1 = true := by
    intro s1 h
    cases s1 with
    | nil => exact absurd rfl h
    | cons a t =>
      exact hasOverlapped_of_shared _ _ a a (List.mem_cons_self a t)
        (List.mem_cons_self a t) (areInstructionsEqual_refl a)
  refine ⟨fun s1 s2 x hx y hy he => hasOverlapped_of_shared s1 s2 x y hx hy he,
    hself, ?_⟩
  unfold collectMatches
  have hstart : j ∉ ({ grouped := [i], freq := 1, labels := labels } : GroupState).grouped := by
    simp
    omega
  exact foldl_inv (fun st => j ∉ st.grouped) (groupStep seqs i) _ _
    (fun st k h => groupStep_not_mem seqs i j s s hi hj (hself s hne) st k h) hstart

/-- Witness for C10 at concrete windows: two identical one-instruction
windows (plus a renamed third) — the identical copy at index 1 is not
grouped with anchor 0. -/
theorem c10_overlap_grouping_witness :
    ([[mkI 11 1], [mkI 11 1], [mkI 11 2]].get? 0 = some [mkI 11 1]) ∧
    ([[mkI 11 1], [mkI 11 1], [mkI 11 2]].get? 1 = some [mkI 11 1]) ∧
    ([mkI 11 1] ≠ ([] : List Inst)) ∧ (0 < 1) ∧
    1 ∉ (collectMatches [[mkI 11 1], [mkI 11 1], [mkI 11 2]] 0 []).grouped :=
  ⟨by decide, by decide, by decide, by decide,
    (c10_overlap_grouping [[mkI 11 1], [mkI 11 1], [mkI 11 2]] 0 1 [mkI 11 1] []
      (by decide) (by decide) (by decide) (by decide)).2.2⟩

/-! ### C6: extraction sources and the hot-function set -/

theorem snd_mem_of_enumFrom {α : Type _} :
    ∀ (l : List α) (n : Nat) (q : Nat × α), q ∈ l.enumFrom n → q.2 ∈ l
  | [], _, _, h => by simp [List.enumFrom] at h
  | a :: l, n, q, h => by
    simp only [List.enumFrom, List.mem_cons] at h
    rcases h with h | h
    · subst h; exact List.mem_cons_self _ _
    · exact List.mem_cons_of_mem _ (snd_mem_of_enumFrom l (n + 1) q h)

theorem foldl_inv_mem {α σ : Type _} (P : σ → Prop) (f : σ → α → σ) :
    ∀ (l : List α) (s : σ), (∀ s a, a ∈ l → P s → P (f s a)) → P s → P (l.foldl f s)
  | [], _, _, hs => hs
  | a :: l, s, hstep, hs =>
    foldl_inv_mem P f l (f s a)
      (fun s b hb => hstep s b (List.mem_cons_of_mem a hb))
      (hstep s a (List.mem_cons_self a l) hs)

theorem foldl_congr_mem {α σ : Type _} (f g : σ → α → σ) :
    ∀ (l : List α) (s : σ), (∀ s a, a ∈ l → f s a = g s a) → l.foldl f s = l.foldl g s
  | [], _, _ => rfl
  | a :: l, s, h => by
    simp only [List.foldl_cons]
    rw [h s a (List.mem_cons_self a l)]
    exact foldl_congr_mem f g l (g s a) (fun s b hb => h s b (List.mem_cons_of_mem a hb))

theorem episodeStep_extracted_inv (cfg : Config) (len : Nat) (N : Nat)
    (st : RunState) (k : Nat)
    (h : st.funcs.length = N ∧ ∀ e ∈ st.extracted, e.1 < N) :
    (episodeStep cfg len st k).funcs.length = N ∧
      ∀ e ∈ (episodeStep cfg len st k).extracted, e.1 < N := by
  obtain ⟨hlen, hext⟩ := h
  unfold episodeStep
  cases hk : st.funcs.get? k with
  | none => exact ⟨hlen, hext⟩
  | some bf =>
    dsimp only
    by_cases hskip : (bf.blocks.isEmpty || !bf.optimize) = true
    · rw [if_pos hskip]; exact ⟨hlen, hext⟩
    · rw [if_neg hskip]
      refine ⟨by simp [hlen], ?_⟩
      intro e he
      simp only [List.mem_append, List.mem_singleton] at he
      rcases he with he | he
      · exact hext e he
      · subst he
        have hk2 : k < st.funcs.length := by
          rcases List.get?_eq_some.mp hk with ⟨hh, _⟩
          exact hh
        simpa [hlen] using hk2

theorem runPass_extracted_bound (cfg : Config) (p : Program) :
    ∀ e ∈ (runPass cfg p).extracted, e.1 < p.funcs.length := by
  have hinv := foldl_inv
    (fun st : RunState => st.funcs.length = p.funcs.length ∧
      ∀ e ∈ st.extracted, e.1 < p.funcs.length)
    (fun st len => (List.range st.funcs.length).foldl (episodeStep cfg len) st)
    (sweepLens cfg) (initState cfg p)
    (fun st len hst => foldl_inv _ (episodeStep cfg len)
      (List.range st.funcs.length) st
      (fun st2 k h2 => episodeStep_extracted_inv cfg len p.funcs.length st2 k h2) hst)
    ⟨rfl, by intro e he; simp [initState] at he⟩
  unfold runPass
  dsimp only
  exact hinv.2

theorem getAllseqs_allhot (cfg : Config) (f : Func) (len : Nat)
    (hpgo : cfg.enablePGO = true)
    (hb : ∀ b ∈ f.blocks, b.profiled = true ∧ b.execCount > 1) :
    getAllseqs cfg f len = [] := by
  unfold getAllseqs
  split_ifs with h1 h2
  · rfl
  · rfl
  · refine foldl_inv_mem (fun acc => acc = []) _ f.blocks.enum [] ?_ rfl
    intro acc q hq hacc
    have hmem : q.2 ∈ f.blocks :=
      snd_mem_of_enumFrom f.blocks 0 q (by simpa [List.enum] using hq)
    obtain ⟨hprof, hcount⟩ := hb q.2 hmem
    dsimp only
    by_cases hempty : q.2.insts.isEmpty = true
    · rw [if_pos hempty]; exact hacc
    · rw [if_neg hempty, if_pos (by simp [hpgo, hprof, hcount])]
      exact hacc

theorem crossBlockSeqs_ge_nil (cfg : Config) (f : Func) (bIdx : Nat) (bb : Block)
    (len : Nat) (h : ¬ bb.insts.length < len) :
    crossBlockSeqs cfg f bIdx bb len = [] := by
  unfold crossBlockSeqs
  rw [if_neg (by simp [h])]

theorem getAllseqs_pgo_unprofiled (cfg : Config) (f : Func) (len : Nat)
    (hb : ∀ b ∈ f.blocks, b.profiled = false) :
    getAllseqs cfg f len = getAllseqs { cfg with enablePGO := false } f len := by
  unfold getAllseqs
  dsimp only
  split_ifs with h1 h2
  · rfl
  · rfl
  · refine foldl_congr_mem _ _ f.blocks.enum [] ?_
    intro acc q hq
    have hmem : q.2 ∈ f.blocks :=
      snd_mem_of_enumFrom f.blocks 0 q (by simpa [List.enum] using hq)
    have hprof := hb q.2 hmem
    by_cases hempty : q.2.insts.isEmpty = true
    · rw [if_pos hempty, if_pos hempty]
    · rw [if_neg hempty, if_neg hempty,
        if_neg (show ¬ (cfg.enablePGO && q.2.profiled && decide (q.2.execCount > 1)) = true
          by simp [hprof]),
        if_neg (show ¬ (false && q.2.profiled && decide (q.2.execCount > 1)) = true
          by simp)]
      by_cases hlen : len > q.2.insts.length
      · rw [if_pos hlen, if_pos hlen]
      · rw [if_neg hlen, if_neg hlen,
          crossBlockSeqs_ge_nil cfg f q.1 q.2 len hlen,
          crossBlockSeqs_ge_nil { cfg with enablePGO := false } f q.1 q.2 len hlen]

/-- C6 counterexample: function 0 of `progC6` is in the precomputed hot
set (`hotFuncs = [0]`, from its function-level execution count 5), yet
the sweep still calls the extractor on it and obtains one window
(`extracted = [(0, 1)]`): the hot set is never consulted; only the
per-block profile gate (its single block has count 1) is applied. -/
theorem c6_hotset_counterexample :
    (runPass cfgC6 progC6).hotFuncs = [0] ∧
    (runPass cfgC6 progC6).extracted = [(0, 1)] := by
  constructor <;> rfl

/-- C6 (amended): extraction sources are exactly the host's function
table — every audit entry indexes an original, non-injected function —
and the profile filtering that does happen is per block: with PGO on, a
function all of whose blocks are hot (profiled, count above 1) yields no
windows, and a function with no profiled block extracts exactly as if
PGO were off (unprofiled code is treated as cold).  The precomputed
hot-function set itself is never consulted (see the counterexample). -/
theorem c6_extraction_sources (cfg : Config) (p : Program)
    (hfo : ∀ f ∈ p.funcs, f.injected = false) :
    (∀ e ∈ (runPass cfg p).extracted,
      ∃ f, p.funcs.get? e.1 = some f ∧ f.injected = false) ∧
    (∀ f len, cfg.enablePGO = true →
      (∀ b ∈ f.blocks, b.profiled = true ∧ b.execCount > 1) →
      getAllseqs cfg f len = []) ∧
    (∀ f len, (∀ b ∈ f.blocks, b.profiled = false) →
      getAllseqs cfg f len = getAllseqs { cfg with enablePGO := false } f len) := by
  refine ⟨?_, ?_, ?_⟩
  · intro e he
    have hlt := runPass_extracted_bound cfg p e he
    refine ⟨p.funcs.get ⟨e.1, hlt⟩, List.get?_eq_get hlt, ?_⟩
    exact hfo _ (List.get_mem p.funcs e.1 hlt)
  · intro f len hpgo hbl
    exact getAllseqs_allhot cfg f len hpgo hbl
  · intro f len hbl
    exact getAllseqs_pgo_unprofiled cfg f len hbl

/-- Witness for C6: the single audit entry of the `progC6` run points at
function 0 of the host table, an original function. -/
theorem c6_extraction_sources_witness :
    ∃ f, progC6.funcs.get? 0 = some f ∧ f.injected = false :=
  (c6_extraction_sources cfgC6 progC6 (by decide)).1 (0, 1)
    (by
      have h : (runPass cfgC6 progC6).extracted = [(0, 1)] := rfl
      rw [h]
      exact List.mem_singleton.mpr rfl)

/-! ### C5: behaviour on a non-AArch64 target -/

theorem replaceSequenceWithCall_notarch (bf : Func) (seq : List Inst) (loc : Loc)
    (sym : Nat) : replaceSequenceWithCall false bf seq loc sym = bf := by
  unfold replaceSequenceWithCall
  by_cases h0 : seq.isEmpty = true
  · rw [if_pos h0]
  · rw [if_neg h0]
    cases hg : getBlock bf loc.bbIdx with
    | none => rfl
    | some bb =>
      dsimp only
      split_ifs <;> simp_all

theorem stackFrameManage_notarch (sandwich : Bool) (f : Func) :
    stackFrameManage false sandwich f = f := by
  unfold stackFrameManage
  split_ifs <;> simp_all

theorem funcShrinking_notarch (f : Func) : funcShrinking false f = f := by
  unfold funcShrinking
  split_ifs <;> simp_all

theorem map_funcShrinking_notarch : ∀ l : List Func, l.map (funcShrinking false) = l
  | [] => rfl
  | f :: l => by rw [List.map_cons, funcShrinking_notarch, map_funcShrinking_notarch l]

theorem createFunction_syms (seq : List Inst) (pc sc : Nat) (mk : MkFuncResult)
    (h : createFunction seq pc sc = some mk) :
    mk.func.sym = sc ∧ sc < mk.symCounter := by
  unfold createFunction at h
  by_cases he : seq.isEmpty = true
  · rw [if_pos he] at h; exact absurd h (by simp)
  · rw [if_neg he] at h
    dsimp only at h
    obtain rfl := (Option.some.inj h).symm
    refine ⟨rfl, ?_⟩
    dsimp only
    split_ifs <;> omega

theorem init_le_foldl_max {α : Type _} (g : α → Nat) :
    ∀ (l : List α) (a : Nat), a ≤ l.foldl (fun m y => max m (g y)) a
  | [], a => le_refl a
  | x :: l, a =>
    le_trans (Nat.le_max_left a (g x)) (init_le_foldl_max g l (max a (g x)))

theorem le_foldl_max {α : Type _} (g : α → Nat) :
    ∀ (l : List α) (a : Nat) (x : α), x ∈ l → g x ≤ l.foldl (fun m y => max m (g y)) a
  | [], _, _, h => absurd h (List.not_mem_nil _)
  | x' :: l, a, x, h => by
    rcases List.mem_cons.mp h with h | h
    · subst h
      exact le_trans (Nat.le_max_right a (g x)) (init_le_foldl_max g l _)
    · exact le_foldl_max g l _ x h

theorem expr_le_progMaxSym (p : Program) (f : Func) (b : Block) (i : Inst) (s : Nat)
    (hf : f ∈ p.funcs) (hb : b ∈ f.blocks) (hi : i ∈ b.insts)
    (ho : Operand.expr s ∈ i.ops) : s ≤ progMaxSym p := by
  have h1 : s ≤ instMaxSym i := le_foldl_max opMaxSym i.ops 0 (Operand.expr s) ho
  have h2 : instMaxSym i ≤ blockMaxSym b := le_foldl_max instMaxSym b.insts 0 i hi
  have h3 : blockMaxSym b ≤ funcMaxSym f :=
    le_trans (le_foldl_max blockMaxSym f.blocks 0 b hb) (Nat.le_max_right f.sym _)
  have h4 : funcMaxSym f ≤ progMaxSym p := le_foldl_max funcMaxSym p.funcs 0 f hf
  omega

theorem anyCallSites_big (p : Program) (t : Nat) (ht : progMaxSym p < t) :
    anyCallSites p.funcs t = false := by
  rw [Bool.eq_false_iff]
  intro h
  unfold anyCallSites at h
  simp only [List.any_eq_true] at h
  obtain ⟨f, hf, b, hb, i, hi, hit⟩ := h
  unfold instTargets at hit
  simp only [Bool.and_eq_true, List.any_eq_true] at hit
  obtain ⟨_, o, ho, hoe⟩ := hit
  have ho2 : o = Operand.expr t := by simpa using hoe
  subst ho2
  have := expr_le_progMaxSym p f b i t hf hb hi ho
  omega

theorem removeRedundant_preserve (p : Program) (outl : List Func)
    (h : ∀ g ∈ outl, progMaxSym p < g.sym) :
    (removeRedundantIntermediateFunctions p.funcs outl).1 = p.funcs := by
  unfold removeRedundantIntermediateFunctions
  refine foldl_inv_mem (fun s : List Func × List Nat => s.1 = p.funcs)
    removeRedundantStep outl.enum (p.funcs, []) ?_ rfl
  intro s q hq hs
  have hg : q.2 ∈ outl := snd_mem_of_enumFrom outl 0 q (by simpa [List.enum] using hq)
  have hsym := h q.2 hg
  unfold removeRedundantStep
  dsimp only
  split_ifs with hb1 hb2 hb3 hb4 hb5 hb6
  · exact hs
  · exact hs
  · exact hs
  · exact hs
  · exact hs
  · exfalso
    rw [hs, anyCallSites_big p q.2.sym hsym] at hb5
    exact hb5 rfl
  · exact hs

theorem anchorStep_notarch_inv (cfg : Config) (harch : cfg.arch = false)
    (p : Program) (len : Nat) (seqs : List (List Inst)) (es : EpisodeState) (i : Nat)
    (h : symBase p ≤ es.symCounter ∧ ∀ g ∈ es.injected, progMaxSym p < g.sym) :
    (anchorStep cfg len seqs es i).bf = es.bf ∧
    symBase p ≤ (anchorStep cfg len seqs es i).symCounter ∧
    ∀ g ∈ (anchorStep cfg len seqs es i).injected, progMaxSym p < g.sym := by
  obtain ⟨hsym, hinj⟩ := h
  unfold anchorStep
  cases hs : seqs.get? i with
  | none => exact ⟨rfl, hsym, hinj⟩
  | some si =>
    dsimp only
    split_ifs with h1 h2 h3
    · exact ⟨rfl, hsym, hinj⟩
    · exact ⟨rfl, hsym, hinj⟩
    · cases hc : createFunction si es.ploCounter es.symCounter with
      | none => exact ⟨rfl, hsym, hinj⟩
      | some mk =>
        dsimp only
        obtain ⟨hsymEq, hlt⟩ := createFunction_syms si es.ploCounter es.symCounter mk hc
        refine ⟨?_, ?_, ?_⟩
        · dsimp only
          refine foldl_inv (fun f => f = es.bf) _ _ es.bf ?_ rfl
          intro f loc hf
          rw [harch, replaceSequenceWithCall_notarch]
          exact hf
        · dsimp only
          unfold symBase at hsym ⊢
          omega
        · intro g hg
          rw [harch, stackFrameManage_notarch] at hg
          rcases List.mem_append.mp hg with hg | hg
          · exact hinj g hg
          · obtain rfl := List.mem_singleton.mp hg
            unfold symBase at hsym
            omega
    · exact ⟨rfl, hsym, hinj⟩

theorem episodeStep_notarch_inv (cfg : Config) (harch : cfg.arch = false)
    (p : Program) (len : Nat) (st : RunState) (k : Nat)
    (h : st.funcs = p.funcs ∧ symBase p ≤ st.symCounter ∧
      ∀ g ∈ st.injected, progMaxSym p < g.sym) :
    (episodeStep cfg len st k).funcs = p.funcs ∧
    symBase p ≤ (episodeStep cfg len st k).symCounter ∧
    ∀ g ∈ (episodeStep cfg len st k).injected, progMaxSym p < g.sym := by
  obtain ⟨hf, hsym, hinj⟩ := h
  unfold episodeStep
  cases hk : st.funcs.get? k with
  | none => exact ⟨hf, hsym, hinj⟩
  | some bf =>
    dsimp only
    by_cases hskip : (bf.blocks.isEmpty || !bf.optimize) = true
    · rw [if_pos hskip]; exact ⟨hf, hsym, hinj⟩
    · rw [if_neg hskip]
      have hstep : ∀ (es : EpisodeState) (i : Nat),
          (es.bf = bf ∧ symBase p ≤ es.symCounter ∧
            ∀ g ∈ es.injected, progMaxSym p < g.sym) →
          ((anchorStep cfg len (getAllseqs cfg bf len) es i).bf = bf ∧
            symBase p ≤ (anchorStep cfg len (getAllseqs cfg bf len) es i).symCounter ∧
            ∀ g ∈ (anchorStep cfg len (getAllseqs cfg bf len) es i).injected,
              progMaxSym p < g.sym) := by
        intro es i hes
        obtain ⟨hbf, h2, h3⟩ := anchorStep_notarch_inv cfg harch p len
          (getAllseqs cfg bf len) es i ⟨hes.2.1, hes.2.2⟩
        exact ⟨hbf.trans hes.1, h2, h3⟩
      have hep := foldl_inv
        (fun es : EpisodeState => es.bf = bf ∧ symBase p ≤ es.symCounter ∧
          ∀ g ∈ es.injected, progMaxSym p < g.sym)
        (anchorStep cfg len (getAllseqs cfg bf len))
        (List.range (getAllseqs cfg bf len).length)
        { bf := bf, labels := [], injected := st.injected,
          ploCounter := st.ploCounter, symCounter := st.symCounter }
        hstep ⟨rfl, hsym, hinj⟩
      refine ⟨?_, hep.2.1, hep.2.2⟩
      dsimp only
      rw [hep.1, list_set_get_self st.funcs k bf hk, hf]

theorem runPass_notarch_funcs (cfg : Config) (p : Program) (harch : cfg.arch = false) :
    (runPass cfg p).funcs = p.funcs := by
  have h1 := foldl_inv
    (fun st : RunState => st.funcs = p.funcs ∧ symBase p ≤ st.symCounter ∧
      ∀ g ∈ st.injected, progMaxSym p < g.sym)
    (fun st len => (List.range st.funcs.length).foldl (episodeStep cfg len) st)
    (sweepLens cfg) (initState cfg p)
    (fun st len hst => foldl_inv _ (episodeStep cfg len)
      (List.range st.funcs.length) st
      (fun st2 k h2 => episodeStep_notarch_inv cfg harch p len st2 k h2) hst)
    ⟨rfl, le_refl _, by intro g hg; simp [initState] at hg⟩
  unfold runPass
  dsimp only
  rw [harch, map_funcShrinking_notarch, h1.1]
  exact removeRedundant_preserve p _ h1.2.2

/-- C5 counterexample: on a non-AArch64 target (`cfgC5.arch = false`)
the pass is NOT a no-op — the run on `progC5` creates three injected
outlined functions (`createFunction` has no architecture gate), even
though the host's own functions are untouched. -/
theorem c5_notarch_counterexample :
    cfgC5.arch = false ∧
    (runPass cfgC5 progC5).injected.length = 3 ∧
    (runPass cfgC5 progC5).funcs = progC5.funcs := by
  refine ⟨rfl, rfl, rfl⟩

/-- C5 (amended): on a non-AArch64 target no instruction of any original
function is rewritten (the rewriter's architecture gate makes every
occurrence replacement the identity, and the intermediate-function
simplifier finds no call sites to the freshly minted symbols), and on
every architecture the single exit of `runOnFunctions` is success —
but injected functions may still be created (see the counterexample). -/
theorem c5_notarch_noop (cfg : Config) (p : Program) (harch : cfg.arch = false) :
    (runPass cfg p).funcs = p.funcs ∧
    (∀ cfg2 p2, ∃ st, runOnFunctions cfg2 p2 = Except.ok st) :=
  ⟨runPass_notarch_funcs cfg p harch,
   fun cfg2 p2 => ⟨runPass cfg2 p2, rfl⟩⟩

/-- Witness for C5 at the concrete non-AArch64 run. -/
theorem c5_notarch_noop_witness :
    (runPass cfgC5 progC5).funcs = progC5.funcs ∧
    (∃ st, runOnFunctions cfgC5 progC5 = Except.ok st) :=
  ⟨(c5_notarch_noop cfgC5 progC5 rfl).1,
   (c5_notarch_noop cfgC5 progC5 rfl).2 cfgC5 progC5⟩

/-! ### C3: fingerprint invariance under register renaming -/

theorem lookupReg_mapRen (π : Nat → Nat) (hinj : Function.Injective π) :
    ∀ (m : List (Nat × Nat)) (r : Nat), lookupReg (mapRen π m) (π r) = lookupReg m r
  | [], _ => rfl
  | (k, v) :: m, r => by
    unfold mapRen at *
    simp only [List.map_cons]
    unfold lookupReg
    by_cases hk : k = r
    · subst hk; simp
    · have hpk : (π k == π r) = false := by
        simp only [beq_eq_false_iff_ne, ne_eq]
        exact fun h => hk (hinj h)
      have hkr : (k == r) = false := by simp [hk]
      rw [hpk, hkr]
      simp only [Bool.false_eq_true, if_false]
      exact lookupReg_mapRen π hinj m r

theorem normalizeRegister_rename (π : Nat → Nat) (hinj : Function.Injective π)
    (h29 : π 29 = 29) (h30 : π 30 = 30) (h31 : π 31 = 31) (r : Nat)
    (m : List (Nat × Nat)) (n : Nat) :
    normalizeRegister (π r) (mapRen π m) n =
      ((normalizeRegister r m n).1, mapRen π (normalizeRegister r m n).2.1,
        (normalizeRegister r m n).2.2) := by
  have hspec : ((π r == 31 || π r == 29 || π r == 30)) =
      ((r == 31 || r == 29 || r == 30)) := by
    by_cases h1 : r = 31
    · subst h1; rw [h31]
    · by_cases h2 : r = 29
      · subst h2; rw [h29]
      · by_cases h3 : r = 30
        · subst h3; rw [h30]
        · have p1 : π r ≠ 31 := fun h => h1 (hinj (h.trans h31.symm))
          have p2 : π r ≠ 29 := fun h => h2 (hinj (h.trans h29.symm))
          have p3 : π r ≠ 30 := fun h => h3 (hinj (h.trans h30.symm))
          rw [beq_eq_false_iff_ne.mpr p1, beq_eq_false_iff_ne.mpr p2,
            beq_eq_false_iff_ne.mpr p3, beq_eq_false_iff_ne.mpr h1,
            beq_eq_false_iff_ne.mpr h2, beq_eq_false_iff_ne.mpr h3]
  unfold normalizeRegister
  by_cases hs : (r == 31 || r == 29 || r == 30) = true
  · have hfix : π r = r := by
      simp only [Bool.or_eq_true, beq_iff_eq] at hs
      rcases hs with (h | h) | h <;> subst h <;> assumption
    rw [hspec, if_pos hs, if_pos hs, hfix]
  · rw [hspec, if_neg hs, if_neg hs, lookupReg_mapRen π hinj m r]
    cases hlr : lookupReg m r with
    | some v => rfl
    | none =>
      simp [mapRen]

theorem hashOperand_rename (π : Nat → Nat) (hinj : Function.Injective π)
    (h29 : π 29 = 29) (h30 : π 30 = 30) (h31 : π 31 = 31)
    (st : HashState) (o : Operand) :
    hashOperand (HashState.mk st.h (mapRen π st.regMap) st.next) (renameOp π o) =
      HashState.mk (hashOperand st o).h (mapRen π (hashOperand st o).regMap)
        (hashOperand st o).next := by
  cases o with
  | reg r =>
    have hnr := normalizeRegister_rename π hinj h29 h30 h31 r st.regMap st.next
    rcases hd : normalizeRegister r st.regMap st.next with ⟨v, m2, n2⟩
    rw [hd] at hnr
    dsimp at hnr
    unfold renameOp hashOperand
    dsimp only
    rw [hnr, hd]
  | imm v => rfl
  | expr s => rfl
  | sfp b => rfl

theorem hashOps_rename (π : Nat → Nat) (hinj : Function.Injective π)
    (h29 : π 29 = 29) (h30 : π 30 = 30) (h31 : π 31 = 31) :
    ∀ (ops : List Operand) (st : HashState),
      ops.foldl (fun s o => hashOperand s (renameOp π o))
        (HashState.mk st.h (mapRen π st.regMap) st.next) =
      HashState.mk (ops.foldl hashOperand st).h
        (mapRen π (ops.foldl hashOperand st).regMap)
        (ops.foldl hashOperand st).next
  | [], _ => rfl
  | o :: ops, st => by
    simp only [List.foldl_cons]
    rw [hashOperand_rename π hinj h29 h30 h31 st o]
    exact hashOps_rename π hinj h29 h30 h31 ops (hashOperand st o)

theorem hashInst_rename (π : Nat → Nat) (hinj : Function.Injective π)
    (h29 : π 29 = 29) (h30 : π 30 = 30) (h31 : π 31 = 31)
    (st : HashState) (i : Inst) :
    hashInst (HashState.mk st.h (mapRen π st.regMap) st.next) (renameInst π i) =
      HashState.mk (hashInst st i).h (mapRen π (hashInst st i).regMap)
        (hashInst st i).next := by
  unfold hashInst renameInst
  simp only [List.foldl_map]
  exact hashOps_rename π hinj h29 h30 h31 i.ops
    (HashState.mk (hashStep st.h i.opcode) st.regMap st.next)

theorem hashSeq_rename (π : Nat → Nat) (hinj : Function.Injective π)
    (h29 : π 29 = 29) (h30 : π 30 = 30) (h31 : π 31 = 31) :
    ∀ (W : List Inst) (st : HashState),
      W.foldl (fun s i2 => hashInst s (renameInst π i2))
        (HashState.mk st.h (mapRen π st.regMap) st.next) =
      HashState.mk (W.foldl hashInst st).h
        (mapRen π (W.foldl hashInst st).regMap)
        (W.foldl hashInst st).next
  | [], _ => rfl
  | i :: W, st => by
    simp only [List.foldl_cons]
    rw [hashInst_rename π hinj h29 h30 h31 st i]
    exact hashSeq_rename π hinj h29 h30 h31 W (hashInst st i)

/-- C3: the fingerprint is invariant under any injective renaming of
register ids that fixes SP (31), FP (29) and LR (30); moreover
`normalizeRegister` returns the raw id for these three registers, and
assigns a fresh sequential id (threaded from 1000 by `getHash`) to any
other register on first sight. -/
theorem c3_hash_invariance (π : Nat → Nat) (hinj : Function.Injective π)
    (h29 : π 29 = 29) (h30 : π 30 = 30) (h31 : π 31 = 31) (W : List Inst) :
    getHash (renameSeq π W) = getHash W ∧
    (∀ r m n, (r == 31 || r == 29 || r == 30) = true →
      normalizeRegister r m n = (r, m, n)) ∧
    (∀ r m n, (r == 31 || r == 29 || r == 30) = false → lookupReg m r = none →
      normalizeRegister r m n = (n, (r, n) :: m, n + 1)) := by
  refine ⟨?_, ?_, ?_⟩
  · unfold getHash renameSeq
    rw [List.foldl_map]
    have h2 : W.foldl (fun s i2 => hashInst s (renameInst π i2))
        (HashState.mk FNVoffset [] 1000) =
        HashState.mk (W.foldl hashInst (HashState.mk FNVoffset [] 1000)).h
          (mapRen π (W.foldl hashInst (HashState.mk FNVoffset [] 1000)).regMap)
          (W.foldl hashInst (HashState.mk FNVoffset [] 1000)).next :=
      hashSeq_rename π hinj h29 h30 h31 W (HashState.mk FNVoffset [] 1000)
    rw [h2]
  · intro r m n hs
    unfold normalizeRegister
    rw [if_pos hs]
  · intro r m n hs hl
    unfold normalizeRegister
    rw [hs]
    simp only [Bool.false_eq_true, if_false]
    rw [hl]

/-- Witness for C3: swapping registers 0 and 1 leaves the hash of a
three-instruction window unchanged. -/
theorem c3_hash_invariance_witness :
    Function.Injective swap01 ∧ swap01 29 = 29 ∧ swap01 30 = 30 ∧ swap01 31 = 31 ∧
    getHash (renameSeq swap01 [mkI 11 0, mkI 12 1, mkI 13 0]) =
      getHash [mkI 11 0, mkI 12 1, mkI 13 0] := by
  have hinj : Function.Injective swap01 := by
    intro a b h
    unfold swap01 at h
    split_ifs at h <;> omega
  exact ⟨hinj, rfl, rfl, rfl,
    (c3_hash_invariance swap01 hinj rfl rfl rfl [mkI 11 0, mkI 12 1, mkI 13 0]).1⟩

end PLO
